import Mathlib

/-!
# Convergence buffer and convergence trace of `MainWindow`

A shallow embedding of the two pieces of `src/MainWindow.cpp` that carry logic:

* `MainWindow::showTelemetry` (lines 45-79): the update of the buffer
  `convergenceTelemetries`;
* `MainWindow::drawConvergenceSpeed` (lines 165-201): the polyline drawn from the buffer.

Conventions of the embedding.

* A `QList<Telemetry>` is a `List Telemetry`, front of the list = `first()`,
  `push_back` appends at the end, `pop_front` is `List.tail`.
* The field `magneticYaw` is a `float`: a finite IEEE 754 binary32 value, that is a rational
  `m * 2 ^ e` with `|m| < 2 ^ 24` and `-149 ≤ e ≤ 104` (`isBinary32`). The `float` operations
  of lines 56-70 (`-`, `+=`, `-`) are the exact operations followed by `roundF32`, rounding to
  the nearest binary32 value, ties to even; `qAbs` and the comparisons are exact. Not-a-number
  and infinite headings are left out (the specification takes the inputs as validated
  numbers). A rounded result of magnitude `2 ^ 128` or more stands for the infinity of the
  same sign: it can only arise from the two subtractions, whose results are only compared
  with `15`, with the same outcome.
* The `qreal` arithmetic of `drawConvergenceSpeed` only builds the points that are handed to
  `drawLine`; it is written with exact rational operations.
* `packetId` is a signed integer; it is only ever compared with `0`.
-/

namespace UavConvergence

/-! ## Single precision -/

/-- Rounding of a rational to the nearest integer, ties to the even one. -/
def roundNearestEven (q : ℚ) : ℤ :=
  let fl := ⌊q⌋
  let frac := q - fl
  if frac < 1 / 2 then fl
  else if 1 / 2 < frac then fl + 1
  else if fl % 2 = 0 then fl else fl + 1

/-- Exponent of the unit in the last place of the binary32 values around `x`: 23 below the
exponent `Int.log 2 |x|` of the binade of `x` (24 significant bits), and `-149` in the
subnormal range. -/
def ulpExponent (x : ℚ) : ℤ :=
  max (Int.log 2 |x| - 23) (-149)

/-- Rounding to the nearest binary32 value, ties to even (the default rounding of `float`
arithmetic): `x` is rounded to a multiple of the unit in the last place. -/
def roundF32 (x : ℚ) : ℚ :=
  (roundNearestEven (x / (2 : ℚ) ^ ulpExponent x) : ℚ) * (2 : ℚ) ^ ulpExponent x

/-- The finite binary32 values: `m * 2 ^ e` with a significand of at most 24 bits and an
exponent between `-149` and `104` (the largest one is `(2 ^ 24 - 1) * 2 ^ 104`). -/
def isBinary32 (q : ℚ) : Prop :=
  ∃ m e : ℤ, |m| < 2 ^ 24 ∧ -149 ≤ e ∧ e ≤ 104 ∧ q = (m : ℚ) * (2 : ℚ) ^ e

/-! ## Data model -/

/-- Modelled from the spec: the record `Telemetry`, which is declared in a header that is not
among the sources. The fields are those read by `MainWindow.cpp` (and listed by the data model
of the specification). `magneticYaw` is the `float` that lines 56-63 read: its value is a
binary32 value, which the last field records. -/
structure Telemetry where
  yaw : ℚ
  magneticYaw : ℚ
  direction : ℚ
  gcsDistance : ℚ
  time : Int
  navigationMode : Int
  airSpeed : ℚ
  convergenceSpeed : ℚ
  convergenceRatio : ℚ
  latitude : ℚ
  longitude : ℚ
  packetId : Int
  isConvergenceDataExist : Bool
  magneticYaw_isBinary32 : isBinary32 magneticYaw

/-- The members of `MainWindow` that `showTelemetry` and the paint handlers read or write
(initialiser list, lines 12-21); the widgets and pixmaps are left out. -/
structure MainWindow where
  telemetry : Telemetry
  isReachedDistinguish : Bool
  convergenceTelemetries : List Telemetry

/-- The constructor (lines 12-28): `telemetry()` is the default-constructed record, passed
here as `dflt` because its declaration is not among the sources; `isReachedDistinguish(false)`,
`convergenceTelemetries()` is the empty list. -/
def MainWindow.new (dflt : Telemetry) : MainWindow :=
  { telemetry := dflt, isReachedDistinguish := false, convergenceTelemetries := [] }

/-! ## `showTelemetry` -/

/-- The constant `distinguishValue = 15.0f` (line 58). -/
def distinguishValue : ℚ := 15

/-- Lines 56-71: the value of `minimalDistinguish` when the `if` of line 72 is reached, as a
function of `first().magneticYaw` and `last().magneticYaw`. Each `float` operation is rounded:
the subtraction of lines 56-57, `less += 360.0f` of line 68 and the subtraction of line 69. -/
def minimalDistinguish (first last : ℚ) : Bool :=
  let delta := |roundF32 (first - last)|
  if delta < distinguishValue then
    true
  else
    let less := first
    let more := last
    let swapped : ℚ × ℚ := if less > more then (more, less) else (less, more)
    let less := roundF32 (swapped.1 + 360)
    let newDelta := roundF32 (less - swapped.2)
    decide (newDelta < distinguishValue)

/-- Lines 50-53: `push_back` of the convergence sample when `packetId >= 0`. -/
def appendSample (buf : List Telemetry) (c : Telemetry) : List Telemetry :=
  if c.packetId ≥ 0 then buf ++ [c] else buf

/-- Lines 54-76: when the buffer holds more than 20 samples, `pop_front` if the test on the
first and last `magneticYaw` succeeds. `first()` and `last()` are only evaluated on the branch
where the size is above 20, where they exist. -/
def evictFront (buf : List Telemetry) : List Telemetry :=
  if buf.length > 20 then
    match buf.head?, buf.getLast? with
    | some first, some last =>
        if minimalDistinguish first.magneticYaw last.magneticYaw then buf.tail else buf
    | _, _ => buf
  else buf

/-- The method `MainWindow::showTelemetry` (lines 45-79), without the final `repaint()`, which changes no
member. -/
def showTelemetry (w : MainWindow) (telemetry convergenceTelemetry : Telemetry) : MainWindow :=
  let w := { w with telemetry := telemetry }
  if convergenceTelemetry.isConvergenceDataExist then
    { w with convergenceTelemetries :=
        evictFront (appendSample w.convergenceTelemetries convergenceTelemetry) }
  else
    w

/-- A sequence of `showTelemetry` calls, each with its pair of arguments, in order. -/
def runUpdates (w : MainWindow) (calls : List (Telemetry × Telemetry)) : MainWindow :=
  calls.foldl (fun w tc => showTelemetry w tc.1 tc.2) w

/-- The value of the literal `0.7f`. -/
def float0_7 : ℚ := 11744051 / 16777216

/-- The value of the literal `15.7f`. -/
def float15_7 : ℚ := 16462643 / 1048576

instance : Fact (isBinary32 0) := ⟨⟨0, 0, by norm_num, by norm_num, by norm_num, by norm_num⟩⟩

instance : Fact (isBinary32 10) := ⟨⟨10, 0, by norm_num, by norm_num, by norm_num, by norm_num⟩⟩

instance : Fact (isBinary32 20) := ⟨⟨20, 0, by norm_num, by norm_num, by norm_num, by norm_num⟩⟩

instance : Fact (isBinary32 30) := ⟨⟨30, 0, by norm_num, by norm_num, by norm_num, by norm_num⟩⟩

instance : Fact (isBinary32 40) := ⟨⟨40, 0, by norm_num, by norm_num, by norm_num, by norm_num⟩⟩

instance : Fact (isBinary32 50) := ⟨⟨50, 0, by norm_num, by norm_num, by norm_num, by norm_num⟩⟩

instance : Fact (isBinary32 90) := ⟨⟨90, 0, by norm_num, by norm_num, by norm_num, by norm_num⟩⟩

instance : Fact (isBinary32 100) :=
  ⟨⟨100, 0, by norm_num, by norm_num, by norm_num, by norm_num⟩⟩

instance : Fact (isBinary32 180) :=
  ⟨⟨180, 0, by norm_num, by norm_num, by norm_num, by norm_num⟩⟩

instance : Fact (isBinary32 200) :=
  ⟨⟨200, 0, by norm_num, by norm_num, by norm_num, by norm_num⟩⟩

instance : Fact (isBinary32 float0_7) :=
  ⟨⟨11744051, -24, by norm_num, by norm_num, by norm_num, by norm_num [float0_7]⟩⟩

instance : Fact (isBinary32 float15_7) :=
  ⟨⟨16462643, -20, by norm_num, by norm_num, by norm_num, by norm_num [float15_7]⟩⟩

/-- A record with the given `magneticYaw` (a binary32 value), `packetId` and flag, the other
fields zero; used to write concrete buffers. -/
def mkSample (magneticYaw : ℚ) (packetId : Int) (flag : Bool)
    [h : Fact (isBinary32 magneticYaw)] : Telemetry :=
  { yaw := 0, magneticYaw := magneticYaw, direction := 0, gcsDistance := 0, time := 0,
    navigationMode := 0, airSpeed := 0, convergenceSpeed := 0, convergenceRatio := 0,
    latitude := 0, longitude := 0, packetId := packetId, isConvergenceDataExist := flag,
    magneticYaw_isBinary32 := h.out }

/-- A window whose buffer is `buf`. -/
def windowWith (buf : List Telemetry) : MainWindow :=
  { telemetry := mkSample 0 0 false, isReachedDistinguish := false,
    convergenceTelemetries := buf }

/-- The circular distance of two headings in degrees, in the words of the specification:
`min(|f - l|, 360 - |f - l|)`. It is not taken from the code; `minimalDistinguish` is compared
with it. -/
def circularDistance (f l : ℚ) : ℚ :=
  min |f - l| (360 - |f - l|)

/-- An eligible sample: flag true and `packetId >= 0`. -/
def isEligible (c : Telemetry) : Prop :=
  c.isConvergenceDataExist = true ∧ c.packetId ≥ 0

instance (c : Telemetry) : Decidable (isEligible c) := by
  unfold isEligible
  infer_instance

/-- The `magneticYaw` of the record is in `[0, 360)`. -/
def yawInRange (c : Telemetry) : Prop :=
  0 ≤ c.magneticYaw ∧ c.magneticYaw < 360

instance (c : Telemetry) : Decidable (yawInRange c) := by
  unfold yawInRange
  infer_instance

/-! ### Concrete buffers and runs -/

/-- A buffer of 20 samples, the first with `magneticYaw = 10`. -/
def buffer20 : List Telemetry :=
  mkSample 10 0 true :: List.replicate 19 (mkSample 200 1 true)

/-- A buffer of 20 samples, the first with `magneticYaw = 0.7f`. -/
def bufferFrom0_7 : List Telemetry :=
  mkSample float0_7 0 true :: List.replicate 19 (mkSample 100 1 true)

/-- A buffer of 25 samples, all with `magneticYaw = 10`. -/
def buffer25 : List Telemetry := List.replicate 25 (mkSample 10 3 true)

/-- The predicate of the buffer invariant: every element has `isConvergenceDataExist = true`
and `packetId >= 0`. -/
def eligibleOnly (buf : List Telemetry) : Prop :=
  ∀ x ∈ buf, x.isConvergenceDataExist = true ∧ x.packetId ≥ 0

/-- Three calls: an eligible sample, one with the flag false, one with a negative
`packetId`. -/
def mixedCalls : List (Telemetry × Telemetry) :=
  [(mkSample 0 0 false, mkSample 30 4 true), (mkSample 0 0 false, mkSample 40 5 false),
   (mkSample 0 0 false, mkSample 50 (-1) true)]

/-- The run used to exceed any size: a sample at `magneticYaw = 0` followed by `n` samples at
`magneticYaw = 180`, all eligible. -/
def turningCalls (n : Nat) : List (Telemetry × Telemetry) :=
  (mkSample 0 0 false, mkSample 0 0 true)
    :: List.replicate n (mkSample 0 0 false, mkSample 180 1 true)

/-! ## `drawConvergenceSpeed` -/

/-- The two colours `Qt::green` and `Qt::red` used by the handler. -/
inductive GlobalColor where
  | green
  | red
deriving DecidableEq

/-- A `QPen(color, width)`. -/
structure QPen where
  color : GlobalColor
  width : Nat
deriving DecidableEq

/-- A `QPointF`. -/
abbrev QPointF := ℚ × ℚ

/-- The painter calls made by `drawConvergenceSpeed`; a `drawLine` is recorded with the pen in
force when it is made. -/
inductive PaintCall where
  | save
  | restore
  | setPen (pen : QPen)
  | drawLine (pen : QPen) (p1 p2 : QPointF)
deriving DecidableEq

/-- The part of a `QPainter` that the handler touches: the current pen, the stack of pens
pushed by `save()`, and the calls received so far, oldest first. -/
structure QPainter where
  pen : QPen
  saved : List QPen
  calls : List PaintCall

/-- The call `painter.save()`. -/
def QPainter.save (p : QPainter) : QPainter :=
  { p with saved := p.pen :: p.saved, calls := p.calls ++ [PaintCall.save] }

/-- The call `painter.restore()`. -/
def QPainter.restore (p : QPainter) : QPainter :=
  match p.saved with
  | [] => { p with calls := p.calls ++ [PaintCall.restore] }
  | q :: rest => { pen := q, saved := rest, calls := p.calls ++ [PaintCall.restore] }

/-- The call `painter.setPen(pen)`. -/
def QPainter.setPen (p : QPainter) (pen : QPen) : QPainter :=
  { p with pen := pen, calls := p.calls ++ [PaintCall.setPen pen] }

/-- The call `painter.drawLine(p1, p2)`, drawn with the current pen. -/
def QPainter.drawLine (p : QPainter) (p1 p2 : QPointF) : QPainter :=
  { p with calls := p.calls ++ [PaintCall.drawLine p.pen p1 p2] }

/-- The pen `QPen positivePen(Qt::green, 2)` (line 175). -/
def positivePen : QPen := { color := GlobalColor.green, width := 2 }

/-- The pen `QPen negativePen(Qt::red, 2)` (line 176). -/
def negativePen : QPen := { color := GlobalColor.red, width := 2 }

/-- The variables carried by the `foreach` loop of lines 178-198. -/
structure TraceState where
  painter : QPainter
  previousPoint : QPointF
  isPreviuosPositive : Bool

/-- One iteration of the loop (lines 180-197). `cosDeg` and `sinDeg` stand for
`cos(qDegreesToRadians(.))` and `sin(qDegreesToRadians(.))`, library functions that are taken
as parameters. -/
def traceStep (cosDeg sinDeg : ℚ → ℚ) (center : QPointF) (radius : ℚ) (st : TraceState)
    (telemetry : Telemetry) : TraceState :=
  let length := telemetry.convergenceRatio * radius
  let endPoint : QPointF :=
    (center.1 + cosDeg telemetry.magneticYaw * length,
     center.2 + sinDeg telemetry.magneticYaw * length)
  let isCurrentPositive : Bool := decide (telemetry.convergenceSpeed > 0)
  let painter :=
    if isCurrentPositive != st.isPreviuosPositive then
      if isCurrentPositive then st.painter.setPen positivePen
      else st.painter.setPen negativePen
    else st.painter
  { painter := painter.drawLine st.previousPoint endPoint,
    previousPoint := endPoint,
    isPreviuosPositive := isCurrentPositive }

/-- The method `MainWindow::drawConvergenceSpeed` (lines 165-201): the painter after the call. -/
def drawConvergenceSpeed (cosDeg sinDeg : ℚ → ℚ) (w : MainWindow) (painter : QPainter)
    (center : QPointF) (radius : ℚ) : QPainter :=
  if w.convergenceTelemetries.length < 2 then
    painter
  else
    let painter := painter.save
    let painter := painter.setPen positivePen
    let st := w.convergenceTelemetries.foldl (traceStep cosDeg sinDeg center radius)
      { painter := painter, previousPoint := center, isPreviuosPositive := true }
    st.painter.restore

/-! ### The trace in the words of the specification -/

/-- The sign test of the specification: `convergenceSpeed > 0`. -/
def isPositive (t : Telemetry) : Bool := decide (t.convergenceSpeed > 0)

/-- Green when `convergenceSpeed > 0`, red otherwise (width 2). -/
def penFor (t : Telemetry) : QPen :=
  if t.convergenceSpeed > 0 then { color := GlobalColor.green, width := 2 }
  else { color := GlobalColor.red, width := 2 }

/-- The point of a sample: polar coordinates `(magneticYaw, convergenceRatio * radius)`
relative to the centre. -/
def tracePoint (cosDeg sinDeg : ℚ → ℚ) (center : QPointF) (radius : ℚ) (t : Telemetry) :
    QPointF :=
  (center.1 + cosDeg t.magneticYaw * (t.convergenceRatio * radius),
   center.2 + sinDeg t.magneticYaw * (t.convergenceRatio * radius))

/-- The calls expected at one sample: a pen change exactly when its sign differs from the
previous one, then the segment from the previous point to the point of the sample, in the
colour of the sample. -/
def sampleCalls (cosDeg sinDeg : ℚ → ℚ) (center : QPointF) (radius : ℚ)
    (prev : Bool × QPointF) (t : Telemetry) : List PaintCall :=
  (if isPositive t ≠ prev.1 then [PaintCall.setPen (penFor t)] else []) ++
    [PaintCall.drawLine (penFor t) prev.2 (tracePoint cosDeg sinDeg center radius t)]

/-- The calls expected for a sequence of samples, the first one being compared with the sign
`prevPositive` and joined to the point `prevPoint`, every other one with its predecessor. -/
def expectedTrace (cosDeg sinDeg : ℚ → ℚ) (center : QPointF) (radius : ℚ)
    (prevPositive : Bool) (prevPoint : QPointF) (buf : List Telemetry) : List PaintCall :=
  (List.zipWith (sampleCalls cosDeg sinDeg center radius)
    ((prevPositive :: buf.map isPositive).zip
      (prevPoint :: buf.map (tracePoint cosDeg sinDeg center radius)))
    buf).flatten

/-- The segments among a list of calls: pen, start and end of each `drawLine`, in order. -/
def drawnLines (calls : List PaintCall) : List (QPen × QPointF × QPointF) :=
  calls.filterMap fun call =>
    match call with
    | PaintCall.drawLine pen p1 p2 => some (pen, p1, p2)
    | _ => none

/-- A record with the given `convergenceSpeed`, `magneticYaw` and `convergenceRatio`. -/
def mkTracePoint (speed yaw ratio : ℚ) [Fact (isBinary32 yaw)] : Telemetry :=
  { mkSample yaw 0 true with convergenceSpeed := speed, convergenceRatio := ratio }

/-- A painter with a red pen of width 1 and no call received. -/
def freshPainter : QPainter :=
  { pen := { color := GlobalColor.red, width := 1 }, saved := [], calls := [] }

/-- A buffer of three samples with speeds `1`, `-1`, `-1`. -/
def traceBuffer : List Telemetry :=
  [mkTracePoint 1 0 1, mkTracePoint (-1) 90 2, mkTracePoint (-1) 180 3]

/-! ## Helper lemmas -/

@[simp]
theorem windowWith_buffer (buf : List Telemetry) :
    (windowWith buf).convergenceTelemetries = buf := rfl

theorem roundNearestEven_ge (n : ℤ) (q : ℚ) (h : (n : ℚ) ≤ q) : n ≤ roundNearestEven q := by
  have hfl : n ≤ ⌊q⌋ := Int.le_floor.mpr h
  unfold roundNearestEven
  simp only
  split_ifs <;> omega

theorem roundNearestEven_le (n : ℤ) (q : ℚ) (h : q ≤ (n : ℚ)) : roundNearestEven q ≤ n := by
  have hfl : ⌊q⌋ ≤ n := by
    have := Int.floor_le q
    exact_mod_cast le_trans this h
  unfold roundNearestEven
  simp only
  have hstep : ¬ (q - (⌊q⌋ : ℚ) < 1 / 2) → ⌊q⌋ + 1 ≤ n := by
    intro hfrac
    have hlt : ((⌊q⌋ : ℤ) : ℚ) < (n : ℚ) := by linarith
    have : ⌊q⌋ < n := by exact_mod_cast hlt
    omega
  split_ifs with h1 h2 h3
  · exact hfl
  · exact hstep h1
  · exact hfl
  · exact hstep h1

theorem roundNearestEven_eq (n : ℤ) (q : ℚ) (h : |q - n| < 1 / 2) : roundNearestEven q = n := by
  rw [abs_lt] at h
  unfold roundNearestEven
  simp only
  by_cases hq : (n : ℚ) ≤ q
  · have hfl : ⌊q⌋ = n := Int.floor_eq_iff.mpr ⟨hq, by linarith⟩
    rw [hfl]
    have h0 : q - (n : ℚ) < 1 / 2 := by linarith
    rw [if_pos h0]
  · have hfl : ⌊q⌋ = n - 1 :=
      Int.floor_eq_iff.mpr ⟨by push_cast; linarith, by push_cast; linarith⟩
    rw [hfl]
    have h1 : ¬ (q - ((n - 1 : ℤ) : ℚ) < 1 / 2) := by push_cast; linarith
    have h2 : 1 / 2 < q - ((n - 1 : ℤ) : ℚ) := by push_cast; linarith
    rw [if_neg h1, if_pos h2]
    omega

theorem roundF32_zero : roundF32 0 = 0 := by
  simp [roundF32, roundNearestEven]

theorem two_zpow_pos (e : ℤ) : (0 : ℚ) < (2 : ℚ) ^ e := zpow_pos (by norm_num) e

theorem two_zpow_le {a b : ℤ} (h : a ≤ b) : (2 : ℚ) ^ a ≤ (2 : ℚ) ^ b :=
  zpow_le_zpow_right₀ (by norm_num) h

theorem zpow_log_le_abs (x : ℚ) (hx : x ≠ 0) : (2 : ℚ) ^ Int.log 2 |x| ≤ |x| := by
  have h := Int.zpow_log_le_self (b := 2) (r := |x|) (by norm_num) (abs_pos.mpr hx)
  simpa using h

theorem log_eq_of_bounds (x : ℚ) (k : ℤ) (h1 : (2 : ℚ) ^ k ≤ |x|) (h2 : |x| < (2 : ℚ) ^ (k + 1)) :
    Int.log 2 |x| = k := by
  have hpos : 0 < |x| := lt_of_lt_of_le (two_zpow_pos k) h1
  have ha : k ≤ Int.log 2 |x| :=
    (Int.zpow_le_iff_le_log (b := 2) (by norm_num) hpos).mp (by simpa using h1)
  have hb : Int.log 2 |x| < k + 1 :=
    (Int.lt_zpow_iff_log_lt (b := 2) (by norm_num) hpos).mp (by simpa using h2)
  omega

/-- A multiple of `2 ^ e` is a multiple of `2 ^ u` for `u ≤ e`. -/
theorem exists_int_mul_zpow (m e u : ℤ) (h : u ≤ e) :
    ∃ j : ℤ, (m : ℚ) * (2 : ℚ) ^ e = (j : ℚ) * (2 : ℚ) ^ u := by
  refine ⟨m * 2 ^ (e - u).toNat, ?_⟩
  have he : e = (((e - u).toNat : ℕ) : ℤ) + u := by
    rw [Int.toNat_of_nonneg (by omega)]
    ring
  have h2 : (2 : ℚ) ^ e = (2 : ℚ) ^ (e - u).toNat * (2 : ℚ) ^ u := by
    conv_lhs => rw [he]
    rw [zpow_add₀ (by norm_num), zpow_natCast]
  rw [h2]
  push_cast
  ring

/-- A multiple of `2 ^ u` below `x` stays below the rounded `x`. -/
theorem mul_zpow_le_roundF32 (j : ℤ) (x : ℚ)
    (h : (j : ℚ) * (2 : ℚ) ^ ulpExponent x ≤ x) :
    (j : ℚ) * (2 : ℚ) ^ ulpExponent x ≤ roundF32 x := by
  have hpos := two_zpow_pos (ulpExponent x)
  have hj : (j : ℚ) ≤ x / (2 : ℚ) ^ ulpExponent x := (le_div_iff₀ hpos).mpr h
  have := roundNearestEven_ge j _ hj
  unfold roundF32
  exact mul_le_mul_of_nonneg_right (by exact_mod_cast this) (le_of_lt hpos)

theorem roundF32_le_mul_zpow (j : ℤ) (x : ℚ)
    (h : x ≤ (j : ℚ) * (2 : ℚ) ^ ulpExponent x) :
    roundF32 x ≤ (j : ℚ) * (2 : ℚ) ^ ulpExponent x := by
  have hpos := two_zpow_pos (ulpExponent x)
  have hj : x / (2 : ℚ) ^ ulpExponent x ≤ (j : ℚ) := (div_le_iff₀ hpos).mpr h
  have := roundNearestEven_le j _ hj
  unfold roundF32
  exact mul_le_mul_of_nonneg_right (by exact_mod_cast this) (le_of_lt hpos)

/-- When the unit in the last place of `x` is coarser than the exponent of a binary32 value
`r`, then `r` is smaller in magnitude than the power of two at the bottom of the binade of
`x`. -/
theorem abs_lt_of_exponent_lt (m e : ℤ) (x : ℚ) (hm : |m| < 2 ^ 24) (he : -149 ≤ e)
    (hx : x ≠ 0) (hu : e < ulpExponent x) :
    ulpExponent x = Int.log 2 |x| - 23 ∧
    |(m : ℚ) * (2 : ℚ) ^ e| < (2 : ℚ) ^ (23 : ℤ) * (2 : ℚ) ^ ulpExponent x ∧
    (2 : ℚ) ^ (23 : ℤ) * (2 : ℚ) ^ ulpExponent x ≤ |x| := by
  have hueq : ulpExponent x = Int.log 2 |x| - 23 := by
    unfold ulpExponent at hu ⊢
    rcases max_cases (Int.log 2 |x| - 23) (-149) with ⟨h1, _⟩ | ⟨h1, _⟩
    · exact h1
    · rw [h1] at hu
      omega
  have hpow : (2 : ℚ) ^ (23 : ℤ) * (2 : ℚ) ^ ulpExponent x = (2 : ℚ) ^ Int.log 2 |x| := by
    rw [← zpow_add₀ (by norm_num), hueq]
    congr 1
    ring
  refine ⟨hueq, ?_, ?_⟩
  · rw [hpow, abs_mul, abs_of_pos (two_zpow_pos e)]
    have hmq : |(m : ℚ)| < (2 : ℚ) ^ (24 : ℤ) := by
      have : ((|m| : ℤ) : ℚ) < ((2 ^ 24 : ℤ) : ℚ) := by exact_mod_cast hm
      rw [Int.cast_abs] at this
      calc |(m : ℚ)| < ((2 ^ 24 : ℤ) : ℚ) := this
        _ = (2 : ℚ) ^ (24 : ℤ) := by norm_num
    calc |(m : ℚ)| * (2 : ℚ) ^ e < (2 : ℚ) ^ (24 : ℤ) * (2 : ℚ) ^ e :=
          mul_lt_mul_of_pos_right hmq (two_zpow_pos e)
      _ = (2 : ℚ) ^ (24 + e) := by rw [← zpow_add₀ (by norm_num)]
      _ ≤ (2 : ℚ) ^ Int.log 2 |x| := two_zpow_le (by omega)
  · rw [hpow]
    exact zpow_log_le_abs x hx

/-- Rounding to nearest never goes below a binary32 value that the argument is above. -/
theorem le_roundF32 (r x : ℚ) (hr : isBinary32 r) (h : r ≤ x) : r ≤ roundF32 x := by
  obtain ⟨m, e, hm, he, _, rfl⟩ := hr
  by_cases hx : x = 0
  · rw [hx, roundF32_zero]
    rw [hx] at h
    exact h
  by_cases hu : ulpExponent x ≤ e
  · obtain ⟨j, hj⟩ := exists_int_mul_zpow m e (ulpExponent x) hu
    rw [hj] at h ⊢
    exact mul_zpow_le_roundF32 j x h
  · obtain ⟨_, hlt, hle⟩ := abs_lt_of_exponent_lt m e x hm he hx (not_le.mp hu)
    rcases lt_or_gt_of_ne hx with hneg | hpos
    · exfalso
      have h1 : |x| ≤ |(m : ℚ) * (2 : ℚ) ^ e| := by
        rw [abs_of_neg hneg, abs_of_neg (lt_of_le_of_lt h hneg)]
        linarith
      linarith
    · have h1 : ((2 ^ 23 : ℤ) : ℚ) * (2 : ℚ) ^ ulpExponent x ≤ x := by
        rw [abs_of_pos hpos] at hle
        have : ((2 ^ 23 : ℤ) : ℚ) = (2 : ℚ) ^ (23 : ℤ) := by norm_num
        rw [this]
        exact hle
      have h2 := mul_zpow_le_roundF32 (2 ^ 23) x h1
      have h3 : ((2 ^ 23 : ℤ) : ℚ) = (2 : ℚ) ^ (23 : ℤ) := by norm_num
      rw [h3] at h2
      have h4 := le_abs_self ((m : ℚ) * (2 : ℚ) ^ e)
      linarith

/-- Rounding to nearest never goes above a binary32 value that the argument is below. -/
theorem roundF32_le (r x : ℚ) (hr : isBinary32 r) (h : x ≤ r) : roundF32 x ≤ r := by
  obtain ⟨m, e, hm, he, _, rfl⟩ := hr
  by_cases hx : x = 0
  · rw [hx, roundF32_zero]
    rw [hx] at h
    exact h
  by_cases hu : ulpExponent x ≤ e
  · obtain ⟨j, hj⟩ := exists_int_mul_zpow m e (ulpExponent x) hu
    rw [hj] at h ⊢
    exact roundF32_le_mul_zpow j x h
  · obtain ⟨_, hlt, hle⟩ := abs_lt_of_exponent_lt m e x hm he hx (not_le.mp hu)
    rcases lt_or_gt_of_ne hx with hneg | hpos
    · have h1 : x ≤ ((-(2 ^ 23) : ℤ) : ℚ) * (2 : ℚ) ^ ulpExponent x := by
        rw [abs_of_neg hneg] at hle
        have : ((-(2 ^ 23) : ℤ) : ℚ) = -(2 : ℚ) ^ (23 : ℤ) := by norm_num
        rw [this]
        linarith
      have h2 := roundF32_le_mul_zpow (-(2 ^ 23)) x h1
      have h3 : ((-(2 ^ 23) : ℤ) : ℚ) = -(2 : ℚ) ^ (23 : ℤ) := by norm_num
      rw [h3] at h2
      have h4 := neg_abs_le ((m : ℚ) * (2 : ℚ) ^ e)
      linarith
    · exfalso
      have h1 : |x| ≤ |(m : ℚ) * (2 : ℚ) ^ e| := by
        rw [abs_of_pos hpos, abs_of_pos (lt_of_lt_of_le hpos h)]
        exact h
      linarith

/-- A binary32 value is left unchanged by the rounding. -/
theorem roundF32_of_isBinary32 (r : ℚ) (hr : isBinary32 r) : roundF32 r = r :=
  le_antisymm (roundF32_le r r hr le_rfl) (le_roundF32 r r hr le_rfl)

/-- Evaluation of the rounding at a value of known binade, away from a tie. -/
theorem roundF32_eq (x : ℚ) (k n : ℤ) (hk : -126 ≤ k) (h1 : (2 : ℚ) ^ k ≤ |x|)
    (h2 : |x| < (2 : ℚ) ^ (k + 1)) (hn : |x / (2 : ℚ) ^ (k - 23) - n| < 1 / 2) :
    roundF32 x = (n : ℚ) * (2 : ℚ) ^ (k - 23) := by
  have hu : ulpExponent x = k - 23 := by
    unfold ulpExponent
    rw [log_eq_of_bounds x k h1 h2]
    exact max_eq_left (by omega)
  unfold roundF32
  rw [hu, roundNearestEven_eq n _ hn]

/-- A binary32 value of magnitude at least `2 ^ k` is a multiple of `2 ^ (k - 23)`. -/
theorem isBinary32_grid (r : ℚ) (k : ℤ) (hr : isBinary32 r) (hk : (2 : ℚ) ^ k ≤ |r|) :
    ∃ j : ℤ, r = (j : ℚ) * (2 : ℚ) ^ (k - 23) := by
  obtain ⟨m, e, hm, he, _, rfl⟩ := hr
  apply exists_int_mul_zpow
  by_contra hlt
  have hmq : |(m : ℚ)| < (2 : ℚ) ^ (24 : ℤ) := by
    have : ((|m| : ℤ) : ℚ) < ((2 ^ 24 : ℤ) : ℚ) := by exact_mod_cast hm
    rw [Int.cast_abs] at this
    calc |(m : ℚ)| < ((2 ^ 24 : ℤ) : ℚ) := this
      _ = (2 : ℚ) ^ (24 : ℤ) := by norm_num
  have h1 : |(m : ℚ) * (2 : ℚ) ^ e| < (2 : ℚ) ^ k := by
    rw [abs_mul, abs_of_pos (two_zpow_pos e)]
    calc |(m : ℚ)| * (2 : ℚ) ^ e < (2 : ℚ) ^ (24 : ℤ) * (2 : ℚ) ^ e :=
          mul_lt_mul_of_pos_right hmq (two_zpow_pos e)
      _ = (2 : ℚ) ^ (24 + e) := by rw [← zpow_add₀ (by norm_num)]
      _ ≤ (2 : ℚ) ^ k := two_zpow_le (by omega)
  linarith

theorem minimalDistinguish_iff (f l : ℚ) :
    minimalDistinguish f l = true ↔
      (|roundF32 (f - l)| < 15 ∨ roundF32 (roundF32 (min f l + 360) - max f l) < 15) := by
  unfold minimalDistinguish distinguishValue
  by_cases h : |roundF32 (f - l)| < 15
  · simp [h]
  · simp only [h, if_false, false_or, decide_eq_true_eq]
    by_cases hlt : f > l
    · have hmin : min f l = l := min_eq_right (le_of_lt hlt)
      have hmax : max f l = f := max_eq_left (le_of_lt hlt)
      simp [hlt, hmin, hmax]
    · have hle : f ≤ l := not_lt.mp hlt
      simp [hlt, min_eq_left hle, max_eq_right hle]

theorem isBinary32_15 : isBinary32 15 :=
  ⟨15, 0, by norm_num, by norm_num, by norm_num, by norm_num⟩

theorem isBinary32_neg15 : isBinary32 (-15) :=
  ⟨-15, 0, by norm_num, by norm_num, by norm_num, by norm_num⟩

theorem isBinary32_360 : isBinary32 360 :=
  ⟨360, 0, by norm_num, by norm_num, by norm_num, by norm_num⟩

theorem isBinary32_below15 : isBinary32 (491519 / 32768) :=
  ⟨491519, -15, by norm_num, by norm_num, by norm_num, by norm_num⟩

theorem isBinary32_neg_below15 : isBinary32 (-(491519 / 32768)) :=
  ⟨-491519, -15, by norm_num, by norm_num, by norm_num, by norm_num⟩

/-- A binary32 heading in `[256, 360)` plus a multiple `a / 2 ^ 15` with `0 ≤ a ≤ 15 * 2 ^ 15`
is a binary32 value. -/
theorem isBinary32_add_of_ge_256 (hi : ℚ) (a : ℤ) (hr : isBinary32 hi) (h256 : 256 ≤ hi)
    (h360 : hi < 360) (ha0 : 0 ≤ a) (ha : a ≤ 491520) :
    isBinary32 (hi + (a : ℚ) / 32768) := by
  obtain ⟨j, hj⟩ := isBinary32_grid hi 8 hr (by rw [abs_of_nonneg (by linarith)]; norm_num; exact h256)
  have hpow : (2 : ℚ) ^ ((8 : ℤ) - 23) = 1 / 32768 := by norm_num
  rw [hpow] at hj
  have hj0 : (0 : ℚ) ≤ (j : ℚ) := by
    have : (j : ℚ) = hi * 32768 := by rw [hj]; ring
    rw [this]
    linarith
  have hj1 : (j : ℚ) < 11796480 := by
    have : (j : ℚ) = hi * 32768 := by rw [hj]; ring
    rw [this]
    linarith
  have hj0i : 0 ≤ j := by exact_mod_cast hj0
  have hj1i : j < 11796480 := by exact_mod_cast hj1
  refine ⟨j + a, -15, ?_, by norm_num, by norm_num, ?_⟩
  · rw [abs_of_nonneg (by omega)]
    norm_num
    omega
  · rw [hj]
    push_cast
    norm_num
    ring

/-- The test computed in binary32 fails whenever the exact circular distance of two binary32
headings in `[0, 360)` is at least 15. -/
theorem minimalDistinguish_of_far (f l : ℚ) (hf : isBinary32 f) (hl : isBinary32 l)
    (hf0 : 0 ≤ f) (hf1 : f < 360) (hl0 : 0 ≤ l) (hl1 : l < 360)
    (hfar : 15 ≤ circularDistance f l) : minimalDistinguish f l = false := by
  rw [Bool.eq_false_iff]
  intro htrue
  rw [minimalDistinguish_iff] at htrue
  unfold circularDistance at hfar
  have hd1 : 15 ≤ |f - l| := le_trans hfar (min_le_left _ _)
  have hd2 : 15 ≤ 360 - |f - l| := le_trans hfar (min_le_right _ _)
  rcases htrue with h | h
  · -- the direct test
    rcases le_abs'.mp hd1 with h1 | h1
    · have := roundF32_le (-15) (f - l) isBinary32_neg15 h1
      have h2 : 15 ≤ |roundF32 (f - l)| := le_abs'.mpr (Or.inl this)
      linarith
    · have := le_roundF32 15 (f - l) isBinary32_15 h1
      have h2 : 15 ≤ |roundF32 (f - l)| := le_abs'.mpr (Or.inr this)
      linarith
  · -- the test after the wrap
    have key : ∀ lo hi : ℚ, isBinary32 hi → 0 ≤ lo → hi < 360 → hi + 15 ≤ lo + 360 →
        15 ≤ roundF32 (roundF32 (lo + 360) - hi) := by
      intro lo hi hhi hlo0 hhi1 hsum
      apply le_roundF32 15 _ isBinary32_15
      by_cases h256 : 256 ≤ hi
      · have hrep := isBinary32_add_of_ge_256 hi 491520 hhi h256 hhi1 (by norm_num) (by norm_num)
        have h15 : hi + ((491520 : ℤ) : ℚ) / 32768 = hi + 15 := by norm_num
        rw [h15] at hrep
        have := le_roundF32 (hi + 15) (lo + 360) hrep hsum
        linarith
      · have := le_roundF32 360 (lo + 360) isBinary32_360 (by linarith)
        linarith
    rcases le_total f l with hle | hle
    · rw [min_eq_left hle, max_eq_right hle] at h
      rw [abs_of_nonpos (by linarith)] at hd2
      have := key f l hl hf0 hl1 (by linarith)
      linarith
    · rw [min_eq_right hle, max_eq_left hle] at h
      rw [abs_of_nonneg (by linarith)] at hd2
      have := key l f hf hl0 hf1 (by linarith)
      linarith

/-- The test computed in binary32 succeeds whenever the exact circular distance of two binary32
headings in `[0, 360)` is at most `15 - 2 ^ (-15)`. -/
theorem minimalDistinguish_of_close (f l : ℚ) (hf : isBinary32 f) (hl : isBinary32 l)
    (hf0 : 0 ≤ f) (hf1 : f < 360) (hl0 : 0 ≤ l) (hl1 : l < 360)
    (hclose : circularDistance f l ≤ 15 - 1 / 32768) : minimalDistinguish f l = true := by
  have hc : (15 - 1 / 32768 : ℚ) = 491519 / 32768 := by norm_num
  rw [hc] at hclose
  rw [minimalDistinguish_iff]
  unfold circularDistance at hclose
  by_cases hd : |f - l| ≤ 491519 / 32768
  · left
    rw [abs_le] at hd
    have h1 := le_roundF32 (-(491519 / 32768)) (f - l) isBinary32_neg_below15 hd.1
    have h2 := roundF32_le (491519 / 32768) (f - l) isBinary32_below15 hd.2
    have h3 : |roundF32 (f - l)| ≤ 491519 / 32768 := abs_le.mpr ⟨h1, h2⟩
    have h4 : (491519 / 32768 : ℚ) < 15 := by norm_num
    linarith
  · right
    have hd2 : 360 - |f - l| ≤ 491519 / 32768 := by
      rcases min_le_iff.mp hclose with h | h
      · exact absurd h hd
      · exact h
    have key : ∀ lo hi : ℚ, isBinary32 hi → 0 ≤ lo → hi < 360 →
        lo + 360 ≤ hi + 491519 / 32768 →
        roundF32 (roundF32 (lo + 360) - hi) < 15 := by
      intro lo hi hhi hlo0 hhi1 hsum
      have h256 : 256 ≤ hi := by
        have : (491519 / 32768 : ℚ) < 15 := by norm_num
        linarith
      have hrep := isBinary32_add_of_ge_256 hi 491519 hhi h256 hhi1 (by norm_num) (by norm_num)
      have hc : hi + ((491519 : ℤ) : ℚ) / 32768 = hi + 491519 / 32768 := by norm_num
      rw [hc] at hrep
      have h1 := roundF32_le (hi + 491519 / 32768) (lo + 360) hrep hsum
      have h2 := roundF32_le (491519 / 32768) (roundF32 (lo + 360) - hi) isBinary32_below15
        (by linarith)
      have h4 : (491519 / 32768 : ℚ) < 15 := by norm_num
      linarith
    rcases le_total f l with hle | hle
    · rw [min_eq_left hle, max_eq_right hle]
      rw [abs_of_nonpos (by linarith)] at hd2
      exact key f l hl hf0 hl1 (by linarith)
    · rw [min_eq_right hle, max_eq_left hle]
      rw [abs_of_nonneg (by linarith)] at hd2
      exact key l f hf hl0 hf1 (by linarith)

/-- The test on `0.7f` and `15.7f`: their difference rounds to `-15`, so the first comparison
fails although the exact distance is below 15, and so does the comparison after the wrap. -/
theorem minimalDistinguish_float0_7_float15_7 :
    minimalDistinguish float0_7 float15_7 = false := by
  rw [Bool.eq_false_iff]
  intro htrue
  rw [minimalDistinguish_iff] at htrue
  have hdelta : roundF32 (float0_7 - float15_7) = -15 := by
    unfold float0_7 float15_7
    rw [roundF32_eq _ 3 (-15728640) (by norm_num) (by norm_num [abs_of_neg])
      (by norm_num [abs_of_neg]) (by norm_num [abs_lt])]
    norm_num
  have hle : float0_7 ≤ float15_7 := by
    unfold float0_7 float15_7
    norm_num
  rcases htrue with h | h
  · rw [hdelta] at h
    norm_num at h
  · rw [min_eq_left hle, max_eq_right hle] at h
    have h1 := le_roundF32 360 (float0_7 + 360) isBinary32_360 (by unfold float0_7; norm_num)
    have h2 := le_roundF32 15 (roundF32 (float0_7 + 360) - float15_7) isBinary32_15
      (by unfold float15_7; linarith)
    linarith

/-- The test on two headings of 10 degrees succeeds. -/
theorem minimalDistinguish_ten_ten : minimalDistinguish 10 10 = true := by
  have h10 : isBinary32 10 := (inferInstance : Fact (isBinary32 10)).out
  refine minimalDistinguish_of_close 10 10 h10 h10 (by norm_num) (by norm_num) (by norm_num)
    (by norm_num) ?_
  unfold circularDistance
  norm_num

/-- With the first and the last element named, `evictFront` is one test. -/
theorem evictFront_eq_ite (buf : List Telemetry) (first last : Telemetry)
    (hf : buf.head? = some first) (hl : buf.getLast? = some last) :
    evictFront buf =
      if 20 < buf.length ∧ minimalDistinguish first.magneticYaw last.magneticYaw = true
      then buf.tail else buf := by
  unfold evictFront
  by_cases hlen : buf.length > 20
  · by_cases hm : minimalDistinguish first.magneticYaw last.magneticYaw = true
    · simp [hlen, hf, hl, hm]
    · simp [hlen, hf, hl, hm]
  · have hlen2 : ¬ 20 < buf.length := hlen
    simp [hlen2]

/-- The eviction step returns its argument or, above 20 elements, its tail. -/
theorem evictFront_cases (buf : List Telemetry) :
    evictFront buf = buf ∨ (evictFront buf = buf.tail ∧ 20 < buf.length) := by
  unfold evictFront
  by_cases hlen : buf.length > 20
  · rw [if_pos hlen]
    split
    · split
      · exact Or.inr ⟨rfl, hlen⟩
      · exact Or.inl rfl
    · exact Or.inl rfl
  · rw [if_neg hlen]
    exact Or.inl rfl

theorem tail_ne_self_of_ne_nil {α : Type} (l : List α) (h : l ≠ []) : l.tail ≠ l := by
  intro heq
  have hlen := congrArg List.length heq
  have hpos : 0 < l.length := List.length_pos.mpr h
  simp at hlen
  omega

theorem showTelemetry_buffer_true (w : MainWindow) (t c : Telemetry)
    (h : c.isConvergenceDataExist = true) :
    (showTelemetry w t c).convergenceTelemetries
      = evictFront (appendSample w.convergenceTelemetries c) := by
  simp [showTelemetry, h]

theorem showTelemetry_buffer_false (w : MainWindow) (t c : Telemetry)
    (h : c.isConvergenceDataExist = false) :
    (showTelemetry w t c).convergenceTelemetries = w.convergenceTelemetries := by
  simp [showTelemetry, h]

theorem appendSample_nonneg (buf : List Telemetry) (c : Telemetry) (h : c.packetId ≥ 0) :
    appendSample buf c = buf ++ [c] := by
  simp [appendSample, h]

theorem appendSample_neg (buf : List Telemetry) (c : Telemetry) (h : c.packetId < 0) :
    appendSample buf c = buf := by
  have h2 : ¬ c.packetId ≥ 0 := not_le.mpr h
  simp [appendSample, h2]

/-- The eviction step keeps the length or, above 20 elements, takes one off. -/
theorem evictFront_length (buf : List Telemetry) :
    (evictFront buf).length = buf.length ∨
      ((evictFront buf).length + 1 = buf.length ∧ 20 < buf.length) := by
  rcases evictFront_cases buf with h | ⟨h, hlen⟩
  · exact Or.inl (by rw [h])
  · refine Or.inr ⟨?_, hlen⟩
    rw [h, List.length_tail]
    omega

/-- The buffer after an update, whatever the flag: `drop k (old ++ added)`. -/
theorem showTelemetry_shape (w : MainWindow) (t c : Telemetry) :
    ∃ (k : Nat) (added : List Telemetry), k ≤ 1 ∧ (added = [] ∨ added = [c]) ∧
      (showTelemetry w t c).convergenceTelemetries
        = (w.convergenceTelemetries ++ added).drop k := by
  cases hflag : c.isConvergenceDataExist
  · exact ⟨0, [], by omega, Or.inl rfl, by simp [showTelemetry_buffer_false w t c hflag]⟩
  · rw [showTelemetry_buffer_true w t c hflag]
    by_cases hp : c.packetId ≥ 0
    · rw [appendSample_nonneg _ _ hp]
      rcases evictFront_cases (w.convergenceTelemetries ++ [c]) with h | ⟨h, _⟩
      · exact ⟨0, [c], by omega, Or.inr rfl, by simp [h]⟩
      · exact ⟨1, [c], by omega, Or.inr rfl, by rw [h, List.drop_one]⟩
    · rw [appendSample_neg _ _ (not_le.mp hp)]
      rcases evictFront_cases w.convergenceTelemetries with h | ⟨h, _⟩
      · exact ⟨0, [], by omega, Or.inl rfl, by simp [h]⟩
      · exact ⟨1, [], by omega, Or.inl rfl, by rw [h, List.append_nil, List.drop_one]⟩

theorem runUpdates_cons (w : MainWindow) (tc : Telemetry × Telemetry)
    (rest : List (Telemetry × Telemetry)) :
    runUpdates w (tc :: rest) = runUpdates (showTelemetry w tc.1 tc.2) rest := rfl

/-- An eligible sample that is far from the front of a non-empty buffer is appended and
nothing is removed. -/
theorem showTelemetry_far (w : MainWindow) (t c front : Telemetry)
    (hfront : w.convergenceTelemetries.head? = some front) (helig : isEligible c)
    (hrf : yawInRange front) (hrc : yawInRange c)
    (hfar : circularDistance front.magneticYaw c.magneticYaw ≥ 15) :
    (showTelemetry w t c).convergenceTelemetries = w.convergenceTelemetries ++ [c] := by
  rw [showTelemetry_buffer_true w t c helig.1, appendSample_nonneg _ _ helig.2]
  have hne : w.convergenceTelemetries ≠ [] := by
    intro hnil
    rw [hnil] at hfront
    simp at hfront
  have hhead : (w.convergenceTelemetries ++ [c]).head? = some front := by
    rw [List.head?_append_of_ne_nil _ hne, hfront]
  have hlast : (w.convergenceTelemetries ++ [c]).getLast? = some c := by
    simp [List.getLast?_append]
  rw [evictFront_eq_ite _ front c hhead hlast]
  have hm : ¬ minimalDistinguish front.magneticYaw c.magneticYaw = true := by
    rw [minimalDistinguish_of_far _ _ front.magneticYaw_isBinary32 c.magneticYaw_isBinary32
      hrf.1 hrf.2 hrc.1 hrc.2 hfar]
    simp
  simp [hm]

/-- A run of eligible samples that are all far from the front of a non-empty buffer appends
them all. -/
theorem runUpdates_far (w : MainWindow) (front : Telemetry)
    (calls : List (Telemetry × Telemetry))
    (hfront : w.convergenceTelemetries.head? = some front) (hrf : yawInRange front)
    (hall : ∀ tc ∈ calls, isEligible tc.2 ∧ yawInRange tc.2 ∧
      circularDistance front.magneticYaw tc.2.magneticYaw ≥ 15) :
    (runUpdates w calls).convergenceTelemetries
      = w.convergenceTelemetries ++ calls.map Prod.snd := by
  induction calls generalizing w with
  | nil => simp [runUpdates]
  | cons tc rest ih =>
    have hstep := showTelemetry_far w tc.1 tc.2 front hfront
      (hall tc (List.mem_cons_self _ _)).1 hrf (hall tc (List.mem_cons_self _ _)).2.1
      (hall tc (List.mem_cons_self _ _)).2.2
    have hne : w.convergenceTelemetries ≠ [] := by
      intro hnil
      rw [hnil] at hfront
      simp at hfront
    have hfront2 : (showTelemetry w tc.1 tc.2).convergenceTelemetries.head? = some front := by
      rw [hstep, List.head?_append_of_ne_nil _ hne, hfront]
    rw [runUpdates_cons, ih (showTelemetry w tc.1 tc.2) hfront2
      (fun x hx => hall x (List.mem_cons_of_mem _ hx)), hstep]
    simp

/-- From the constructed window, a run of eligible samples with headings in `[0, 360)`, of
which every one after the first is far from the first, leaves the buffer equal to the sequence
of the samples. -/
theorem runUpdates_new_far (dflt : Telemetry) (calls : List (Telemetry × Telemetry))
    (helig : ∀ tc ∈ calls, isEligible tc.2 ∧ yawInRange tc.2)
    (hfar : ∀ first ∈ calls.head?, ∀ tc ∈ calls.tail,
      circularDistance first.2.magneticYaw tc.2.magneticYaw ≥ 15) :
    (runUpdates (MainWindow.new dflt) calls).convergenceTelemetries = calls.map Prod.snd := by
  cases calls with
  | nil => rfl
  | cons tc rest =>
    have he := helig tc (List.mem_cons_self _ _)
    have h0 : (showTelemetry (MainWindow.new dflt) tc.1 tc.2).convergenceTelemetries
        = [tc.2] := by
      rw [showTelemetry_buffer_true _ _ _ he.1.1, appendSample_nonneg _ _ he.1.2]
      simp [MainWindow.new, evictFront]
    rw [runUpdates_cons, runUpdates_far (showTelemetry (MainWindow.new dflt) tc.1 tc.2) tc.2 rest
      (by rw [h0]; rfl) he.2
      (fun x hx => ⟨(helig x (List.mem_cons_of_mem _ hx)).1,
        (helig x (List.mem_cons_of_mem _ hx)).2, hfar tc (by simp) x (by simpa using hx)⟩),
      h0]
    simp

theorem expectedTrace_nil (cosDeg sinDeg : ℚ → ℚ) (center : QPointF) (radius : ℚ)
    (pp : Bool) (ppt : QPointF) :
    expectedTrace cosDeg sinDeg center radius pp ppt [] = [] := by
  simp [expectedTrace]

theorem expectedTrace_cons (cosDeg sinDeg : ℚ → ℚ) (center : QPointF) (radius : ℚ)
    (pp : Bool) (ppt : QPointF) (t : Telemetry) (ts : List Telemetry) :
    expectedTrace cosDeg sinDeg center radius pp ppt (t :: ts)
      = sampleCalls cosDeg sinDeg center radius (pp, ppt) t ++
          expectedTrace cosDeg sinDeg center radius (isPositive t)
            (tracePoint cosDeg sinDeg center radius t) ts := by
  simp [expectedTrace]

theorem penFor_eq (t : Telemetry) :
    penFor t = if isPositive t then positivePen else negativePen := by
  unfold penFor isPositive positivePen negativePen
  by_cases h : t.convergenceSpeed > 0 <;> simp [h]

/-- One iteration of the loop, when the pen in force is the one of the previous sign. -/
theorem traceStep_spec (cosDeg sinDeg : ℚ → ℚ) (center : QPointF) (radius : ℚ)
    (st : TraceState) (t : Telemetry)
    (hpen : st.painter.pen = if st.isPreviuosPositive then positivePen else negativePen) :
    (traceStep cosDeg sinDeg center radius st t).painter.calls
        = st.painter.calls ++
            sampleCalls cosDeg sinDeg center radius
              (st.isPreviuosPositive, st.previousPoint) t ∧
    (traceStep cosDeg sinDeg center radius st t).painter.pen
        = (if isPositive t then positivePen else negativePen) ∧
    (traceStep cosDeg sinDeg center radius st t).painter.saved = st.painter.saved ∧
    (traceStep cosDeg sinDeg center radius st t).previousPoint
        = tracePoint cosDeg sinDeg center radius t ∧
    (traceStep cosDeg sinDeg center radius st t).isPreviuosPositive = isPositive t := by
  have hfor := penFor_eq t
  unfold isPositive at hfor
  cases hcur : decide (t.convergenceSpeed > 0) <;> cases hprev : st.isPreviuosPositive <;>
    simp [traceStep, sampleCalls, isPositive, tracePoint, QPainter.setPen, QPainter.drawLine,
      hcur, hprev, hpen, hfor]

/-- The loop, from any state in which the pen in force is the one of the previous sign. -/
theorem foldl_traceStep_spec (cosDeg sinDeg : ℚ → ℚ) (center : QPointF) (radius : ℚ)
    (buf : List Telemetry) (st : TraceState)
    (hpen : st.painter.pen = if st.isPreviuosPositive then positivePen else negativePen) :
    (buf.foldl (traceStep cosDeg sinDeg center radius) st).painter.calls
        = st.painter.calls ++
            expectedTrace cosDeg sinDeg center radius st.isPreviuosPositive
              st.previousPoint buf ∧
    (buf.foldl (traceStep cosDeg sinDeg center radius) st).painter.saved
        = st.painter.saved := by
  induction buf generalizing st with
  | nil => simp [expectedTrace_nil]
  | cons t ts ih =>
    obtain ⟨hcalls, hpen2, hsaved, hpt, hpos⟩ :=
      traceStep_spec cosDeg sinDeg center radius st t hpen
    have h := ih (traceStep cosDeg sinDeg center radius st t) (by rw [hpen2, hpos])
    rw [List.foldl_cons, h.1, h.2, hcalls, hsaved, hpt, hpos, expectedTrace_cons,
      List.append_assoc]
    exact ⟨rfl, rfl⟩

theorem drawnLines_append (a b : List PaintCall) :
    drawnLines (a ++ b) = drawnLines a ++ drawnLines b := by
  simp [drawnLines]

theorem drawnLines_sampleCalls (cosDeg sinDeg : ℚ → ℚ) (center : QPointF) (radius : ℚ)
    (prev : Bool × QPointF) (t : Telemetry) :
    drawnLines (sampleCalls cosDeg sinDeg center radius prev t)
      = [(penFor t, prev.2, tracePoint cosDeg sinDeg center radius t)] := by
  unfold sampleCalls
  split <;> simp [drawnLines]

theorem drawnLines_expectedTrace (cosDeg sinDeg : ℚ → ℚ) (center : QPointF) (radius : ℚ)
    (pp : Bool) (ppt : QPointF) (buf : List Telemetry) :
    drawnLines (expectedTrace cosDeg sinDeg center radius pp ppt buf)
      = List.zipWith
          (fun start t => (penFor t, start, tracePoint cosDeg sinDeg center radius t))
          (ppt :: buf.map (tracePoint cosDeg sinDeg center radius)) buf := by
  induction buf generalizing pp ppt with
  | nil => simp [expectedTrace_nil, drawnLines]
  | cons t ts ih =>
    rw [expectedTrace_cons, drawnLines_append, drawnLines_sampleCalls, ih]
    simp

/-! ## The update of the buffer -/

/-- C1, as stated, fails: with the comparisons of the claim taken on the exact values, the
buffer `B` of 21 samples that starts with `magneticYaw = 0.7f` and ends with
`magneticYaw = 15.7f` has `|f - l| < 15` (the exact difference is `15 - 3 / 2 ^ 24`), yet the
buffer after the update is `B` with its 21 samples, not `B` without its first element: the
`float` subtraction of line 56 rounds to `-15` and `delta < 15` is false. -/
theorem eviction_rule_fails_on_exact_values :
    (mkSample float15_7 21 true).isConvergenceDataExist = true ∧
    (appendSample (windowWith bufferFrom0_7).convergenceTelemetries
        (mkSample float15_7 21 true)).head? = some (mkSample float0_7 0 true) ∧
    (appendSample (windowWith bufferFrom0_7).convergenceTelemetries
        (mkSample float15_7 21 true)).getLast? = some (mkSample float15_7 21 true) ∧
    20 < (appendSample (windowWith bufferFrom0_7).convergenceTelemetries
        (mkSample float15_7 21 true)).length ∧
    |(mkSample float0_7 0 true).magneticYaw - (mkSample float15_7 21 true).magneticYaw| < 15 ∧
    (showTelemetry (windowWith bufferFrom0_7) (mkSample 0 0 false)
        (mkSample float15_7 21 true)).convergenceTelemetries
      = appendSample (windowWith bufferFrom0_7).convergenceTelemetries
          (mkSample float15_7 21 true) ∧
    (showTelemetry (windowWith bufferFrom0_7) (mkSample 0 0 false)
        (mkSample float15_7 21 true)).convergenceTelemetries
      ≠ (appendSample (windowWith bufferFrom0_7).convergenceTelemetries
          (mkSample float15_7 21 true)).tail ∧
    (showTelemetry (windowWith bufferFrom0_7) (mkSample 0 0 false)
        (mkSample float15_7 21 true)).convergenceTelemetries.length = 21 := by
  have happ : appendSample (windowWith bufferFrom0_7).convergenceTelemetries
      (mkSample float15_7 21 true) = bufferFrom0_7 ++ [mkSample float15_7 21 true] := by
    rw [appendSample_nonneg _ _ (by simp [mkSample])]
    rfl
  have hhead : (bufferFrom0_7 ++ [mkSample float15_7 21 true]).head?
      = some (mkSample float0_7 0 true) := by
    simp [bufferFrom0_7]
  have hlast : (bufferFrom0_7 ++ [mkSample float15_7 21 true]).getLast?
      = some (mkSample float15_7 21 true) := by
    simp [List.getLast?_append]
  have hres : (showTelemetry (windowWith bufferFrom0_7) (mkSample 0 0 false)
      (mkSample float15_7 21 true)).convergenceTelemetries
      = bufferFrom0_7 ++ [mkSample float15_7 21 true] := by
    rw [showTelemetry_buffer_true _ _ _ rfl, happ, evictFront_eq_ite _ _ _ hhead hlast]
    have hm : minimalDistinguish (mkSample float0_7 0 true).magneticYaw
        (mkSample float15_7 21 true).magneticYaw = false :=
      minimalDistinguish_float0_7_float15_7
    simp [hm]
  rw [hres, happ]
  refine ⟨rfl, hhead, hlast, by simp [bufferFrom0_7], ?_, rfl, ?_, by simp [bufferFrom0_7]⟩
  · simp only [mkSample, float0_7, float15_7]
    rw [abs_lt]
    constructor <;> norm_num
  · exact (tail_ne_self_of_ne_nil _ (by simp)).symm

/-- C1, amended: eviction rule of `showTelemetry`. For a sample with
`isConvergenceDataExist = true`, let `B` be the buffer after the conditional append (the sample
is added at the end iff `packetId >= 0`), `f` the `magneticYaw` of the first element of `B` and
`l` that of its last element. The buffer after the update is `B` without its first element if
and only if `B` holds more than 20 samples and the test computed in single precision succeeds:
`|fl (f - l)| < 15` or `fl (fl (min f l + 360) - max f l) < 15`, where `fl` rounds to the
nearest binary32 value; in every other case it is exactly `B` (also when `B` is empty and has
no first element). -/
theorem showTelemetry_eviction_rule (w : MainWindow) (t c : Telemetry)
    (hflag : c.isConvergenceDataExist = true) :
    (appendSample w.convergenceTelemetries c
        = if c.packetId ≥ 0 then w.convergenceTelemetries ++ [c]
          else w.convergenceTelemetries) ∧
    (∀ first last : Telemetry,
      (appendSample w.convergenceTelemetries c).head? = some first →
      (appendSample w.convergenceTelemetries c).getLast? = some last →
      (((showTelemetry w t c).convergenceTelemetries
            = (appendSample w.convergenceTelemetries c).tail
          ↔ (20 < (appendSample w.convergenceTelemetries c).length ∧
              (|roundF32 (first.magneticYaw - last.magneticYaw)| < 15 ∨
                roundF32 (roundF32 (min first.magneticYaw last.magneticYaw + 360)
                  - max first.magneticYaw last.magneticYaw) < 15))) ∧
       (¬ (20 < (appendSample w.convergenceTelemetries c).length ∧
              (|roundF32 (first.magneticYaw - last.magneticYaw)| < 15 ∨
                roundF32 (roundF32 (min first.magneticYaw last.magneticYaw + 360)
                  - max first.magneticYaw last.magneticYaw) < 15)) →
          (showTelemetry w t c).convergenceTelemetries
            = appendSample w.convergenceTelemetries c))) ∧
    (appendSample w.convergenceTelemetries c = [] →
      (showTelemetry w t c).convergenceTelemetries = []) := by
  refine ⟨rfl, ?_, ?_⟩
  · intro first last hf hl
    rw [showTelemetry_buffer_true w t c hflag, evictFront_eq_ite _ first last hf hl,
      ← minimalDistinguish_iff]
    have hne : appendSample w.convergenceTelemetries c ≠ [] := by
      intro hnil
      rw [hnil] at hf
      simp at hf
    constructor
    · constructor
      · intro heq
        by_contra hcond
        rw [if_neg hcond] at heq
        exact tail_ne_self_of_ne_nil _ hne heq.symm
      · intro hcond
        rw [if_pos hcond]
    · intro hcond
      rw [if_neg hcond]
  · intro hnil
    rw [showTelemetry_buffer_true w t c hflag, hnil]
    simp [evictFront]

/-- C1 amended, at the example of the specification: a buffer that holds 21 samples after the
append, with `f = 10` and `l = 20`, loses its first element and ends with 20 samples. -/
theorem showTelemetry_eviction_rule_witness :
    (mkSample 20 21 true).isConvergenceDataExist = true ∧
    (appendSample (windowWith buffer20).convergenceTelemetries (mkSample 20 21 true)).length
      = 21 ∧
    (showTelemetry (windowWith buffer20) (mkSample 0 0 false)
        (mkSample 20 21 true)).convergenceTelemetries
      = (appendSample (windowWith buffer20).convergenceTelemetries (mkSample 20 21 true)).tail ∧
    (showTelemetry (windowWith buffer20) (mkSample 0 0 false)
        (mkSample 20 21 true)).convergenceTelemetries.length = 20 := by
  have key := (showTelemetry_eviction_rule (windowWith buffer20) (mkSample 0 0 false)
    (mkSample 20 21 true) rfl).2.1 (mkSample 10 0 true) (mkSample 20 21 true)
    (by simp [appendSample, windowWith, buffer20, mkSample])
    (by simp [appendSample, windowWith, buffer20, mkSample, List.getLast?_append])
  have hcond : 20 < (appendSample (windowWith buffer20).convergenceTelemetries
        (mkSample 20 21 true)).length ∧
      (|roundF32 ((mkSample 10 0 true).magneticYaw - (mkSample 20 21 true).magneticYaw)| < 15 ∨
        roundF32 (roundF32
          (min (mkSample 10 0 true).magneticYaw (mkSample 20 21 true).magneticYaw + 360)
          - max (mkSample 10 0 true).magneticYaw (mkSample 20 21 true).magneticYaw) < 15) := by
    refine ⟨by simp [appendSample, windowWith, buffer20, mkSample], ?_⟩
    rw [← minimalDistinguish_iff]
    apply minimalDistinguish_of_close _ _ (mkSample 10 0 true).magneticYaw_isBinary32
      (mkSample 20 21 true).magneticYaw_isBinary32 <;>
      simp only [mkSample, circularDistance] <;> norm_num [abs_of_neg]
  have heq := key.1.mpr hcond
  refine ⟨rfl, by simp [appendSample, windowWith, buffer20, mkSample], heq, ?_⟩
  rw [heq]
  simp [appendSample, windowWith, buffer20, mkSample]

/-- C2: for every buffer and every convergence sample with `isConvergenceDataExist = false`,
whatever its `packetId` and `magneticYaw`, `showTelemetry` leaves the convergence buffer
unchanged: same elements in the same order, hence same size. -/
theorem showTelemetry_flag_false_unchanged (w : MainWindow) (t c : Telemetry)
    (hflag : c.isConvergenceDataExist = false) :
    (showTelemetry w t c).convergenceTelemetries = w.convergenceTelemetries ∧
    (showTelemetry w t c).convergenceTelemetries.length = w.convergenceTelemetries.length := by
  rw [showTelemetry_buffer_false w t c hflag]
  exact ⟨rfl, rfl⟩

/-- C2 on a buffer of 25 samples whose first and last `magneticYaw` agree, with a sample of
non-negative `packetId` and flag false: nothing is appended and nothing is evicted. -/
theorem showTelemetry_flag_false_unchanged_witness :
    (mkSample 10 7 false).isConvergenceDataExist = false ∧
    (showTelemetry (windowWith buffer25) (mkSample 0 0 false)
        (mkSample 10 7 false)).convergenceTelemetries = buffer25 ∧
    (showTelemetry (windowWith buffer25) (mkSample 0 0 false)
        (mkSample 10 7 false)).convergenceTelemetries.length = 25 := by
  have h := showTelemetry_flag_false_unchanged (windowWith buffer25) (mkSample 0 0 false)
    (mkSample 10 7 false) rfl
  refine ⟨rfl, h.1, ?_⟩
  rw [h.1]
  simp [buffer25]

/-- C3: for every buffer and every convergence sample with `packetId < 0`, whatever its flag,
`showTelemetry` appends nothing: the buffer after the update is the buffer before it, or it is
the buffer before it without its first element, which happens only when the buffer held more
than 20 samples before the update and the flag is true. -/
theorem showTelemetry_negative_packetId (w : MainWindow) (t c : Telemetry)
    (hneg : c.packetId < 0) :
    appendSample w.convergenceTelemetries c = w.convergenceTelemetries ∧
    ((showTelemetry w t c).convergenceTelemetries = w.convergenceTelemetries ∨
      ((showTelemetry w t c).convergenceTelemetries = w.convergenceTelemetries.tail ∧
        (showTelemetry w t c).convergenceTelemetries ≠ w.convergenceTelemetries ∧
        20 < w.convergenceTelemetries.length ∧ c.isConvergenceDataExist = true)) := by
  refine ⟨appendSample_neg _ _ hneg, ?_⟩
  cases hflag : c.isConvergenceDataExist
  · exact Or.inl (showTelemetry_buffer_false w t c hflag)
  · rw [showTelemetry_buffer_true w t c hflag, appendSample_neg _ _ hneg]
    rcases evictFront_cases w.convergenceTelemetries with h | ⟨h, hlen⟩
    · exact Or.inl h
    · refine Or.inr ⟨h, ?_, hlen, rfl⟩
      rw [h]
      apply tail_ne_self_of_ne_nil
      intro hnil
      rw [hnil] at hlen
      simp at hlen

/-- C3 on a buffer of 25 samples with equal `magneticYaw` and a sample with `packetId = -1`
and flag true: nothing is appended, and the second alternative holds, the first element is
removed. -/
theorem showTelemetry_negative_packetId_witness :
    (mkSample 10 (-1) true).packetId < 0 ∧
    appendSample (windowWith buffer25).convergenceTelemetries (mkSample 10 (-1) true)
      = buffer25 ∧
    (showTelemetry (windowWith buffer25) (mkSample 0 0 false)
        (mkSample 10 (-1) true)).convergenceTelemetries
      = List.replicate 24 (mkSample 10 3 true) := by
  have h := showTelemetry_negative_packetId (windowWith buffer25) (mkSample 0 0 false)
    (mkSample 10 (-1) true) (by simp [mkSample])
  refine ⟨by simp [mkSample], h.1, ?_⟩
  rcases h.2 with h2 | ⟨h2, _⟩
  · exfalso
    have hlen := congrArg List.length h2
    rw [showTelemetry_buffer_true _ _ _ rfl, h.1, windowWith_buffer] at hlen
    have hev : evictFront buffer25 = buffer25.tail := by
      rw [evictFront_eq_ite buffer25 (mkSample 10 3 true) (mkSample 10 3 true)
        (by simp [buffer25]) (by simp [buffer25, List.getLast?_replicate])]
      have hm : minimalDistinguish (mkSample 10 3 true).magneticYaw
          (mkSample 10 3 true).magneticYaw = true := minimalDistinguish_ten_ten
      simp [hm, buffer25]
    rw [hev] at hlen
    simp [buffer25] at hlen
  · rw [h2]
    simp [buffer25]

/-- C4: for every buffer and every sample, one call of `showTelemetry` adds at most one element
at the back and removes at most one element from the front, keeping arrival order: the buffer
after the update is `drop k (old ++ added)` with `k` in `{0, 1}` and `added` in
`{[], [sample]}`. Hence the size after is between `size - 1` and `size + 1`; and for a sample
with flag true and `packetId >= 0` the size is exactly `size + 1` before the eviction step and
`size` or `size + 1` after it. -/
theorem showTelemetry_one_in_one_out (w : MainWindow) (t c : Telemetry) :
    (∃ (k : Nat) (added : List Telemetry), (k = 0 ∨ k = 1) ∧ (added = [] ∨ added = [c]) ∧
      (showTelemetry w t c).convergenceTelemetries
        = (w.convergenceTelemetries ++ added).drop k) ∧
    w.convergenceTelemetries.length ≤ (showTelemetry w t c).convergenceTelemetries.length + 1 ∧
    (showTelemetry w t c).convergenceTelemetries.length ≤ w.convergenceTelemetries.length + 1 ∧
    (c.isConvergenceDataExist = true → c.packetId ≥ 0 →
      (appendSample w.convergenceTelemetries c).length = w.convergenceTelemetries.length + 1 ∧
      (showTelemetry w t c).convergenceTelemetries
        = evictFront (appendSample w.convergenceTelemetries c) ∧
      ((showTelemetry w t c).convergenceTelemetries.length = w.convergenceTelemetries.length ∨
        (showTelemetry w t c).convergenceTelemetries.length
          = w.convergenceTelemetries.length + 1)) := by
  obtain ⟨k, added, hk, hadd, hshape⟩ := showTelemetry_shape w t c
  have hlen : (showTelemetry w t c).convergenceTelemetries.length
      = w.convergenceTelemetries.length + added.length - k := by
    rw [hshape, List.length_drop, List.length_append]
  have hadded : added.length ≤ 1 := by
    rcases hadd with h | h <;> simp [h]
  refine ⟨⟨k, added, by omega, hadd, hshape⟩, by omega, by omega, ?_⟩
  intro hflag hp
  have happ : (appendSample w.convergenceTelemetries c).length
      = w.convergenceTelemetries.length + 1 := by
    rw [appendSample_nonneg _ _ hp, List.length_append, List.length_singleton]
  refine ⟨happ, showTelemetry_buffer_true w t c hflag, ?_⟩
  rw [showTelemetry_buffer_true w t c hflag]
  rcases evictFront_length (appendSample w.convergenceTelemetries c) with h | ⟨h, _⟩
  · exact Or.inr (by rw [h, happ])
  · exact Or.inl (by omega)

/-- C4 at a buffer of 25 samples and an eligible sample: 26 samples before the eviction step,
25 or 26 after it. -/
theorem showTelemetry_one_in_one_out_witness :
    (mkSample 10 7 true).isConvergenceDataExist = true ∧ (mkSample 10 7 true).packetId ≥ 0 ∧
    (appendSample buffer25 (mkSample 10 7 true)).length = 26 ∧
    ((showTelemetry (windowWith buffer25) (mkSample 0 0 false)
        (mkSample 10 7 true)).convergenceTelemetries.length = 25 ∨
      (showTelemetry (windowWith buffer25) (mkSample 0 0 false)
        (mkSample 10 7 true)).convergenceTelemetries.length = 26) := by
  have h := (showTelemetry_one_in_one_out (windowWith buffer25) (mkSample 0 0 false)
    (mkSample 10 7 true)).2.2.2 rfl (by simp [mkSample])
  simp only [windowWith_buffer] at h
  have h25 : buffer25.length = 25 := by simp [buffer25]
  rw [h25] at h
  exact ⟨rfl, by simp [mkSample], h.1, h.2.2⟩

theorem eligibleOnly_showTelemetry (w : MainWindow) (t c : Telemetry)
    (h : eligibleOnly w.convergenceTelemetries) :
    eligibleOnly (showTelemetry w t c).convergenceTelemetries := by
  intro x hx
  cases hflag : c.isConvergenceDataExist
  · rw [showTelemetry_buffer_false w t c hflag] at hx
    exact h x hx
  · rw [showTelemetry_buffer_true w t c hflag] at hx
    have hx2 : x ∈ appendSample w.convergenceTelemetries c := by
      rcases evictFront_cases (appendSample w.convergenceTelemetries c) with he | ⟨he, _⟩
      · rwa [he] at hx
      · rw [he] at hx
        exact List.mem_of_mem_tail hx
    by_cases hp : c.packetId ≥ 0
    · rw [appendSample_nonneg _ _ hp] at hx2
      rcases List.mem_append.mp hx2 with hold | hnew
      · exact h x hold
      · have hxc : x = c := by simpa using hnew
        rw [hxc]
        exact ⟨hflag, hp⟩
    · rw [appendSample_neg _ _ (not_le.mp hp)] at hx2
      exact h x hx2

theorem eligibleOnly_runUpdates (w : MainWindow) (calls : List (Telemetry × Telemetry))
    (h : eligibleOnly w.convergenceTelemetries) :
    eligibleOnly (runUpdates w calls).convergenceTelemetries := by
  induction calls generalizing w with
  | nil => exact h
  | cons tc rest ih =>
    exact ih (showTelemetry w tc.1 tc.2) (eligibleOnly_showTelemetry w tc.1 tc.2 h)

/-- C5: buffer invariant. The buffer built by the constructor is empty and satisfies the
predicate "every element has `isConvergenceDataExist = true` and `packetId >= 0`"; every
`showTelemetry` call preserves the predicate, whatever the sample; hence it holds in every
state reached from the constructed window by a finite sequence of `showTelemetry` calls. -/
theorem buffer_invariant :
    (∀ dflt : Telemetry, (MainWindow.new dflt).convergenceTelemetries = []) ∧
    (∀ dflt : Telemetry, eligibleOnly (MainWindow.new dflt).convergenceTelemetries) ∧
    (∀ (w : MainWindow) (t c : Telemetry), eligibleOnly w.convergenceTelemetries →
      eligibleOnly (showTelemetry w t c).convergenceTelemetries) ∧
    (∀ (dflt : Telemetry) (calls : List (Telemetry × Telemetry)),
      ∀ x ∈ (runUpdates (MainWindow.new dflt) calls).convergenceTelemetries,
        x.isConvergenceDataExist = true ∧ x.packetId ≥ 0) := by
  have hnew : ∀ dflt : Telemetry, eligibleOnly (MainWindow.new dflt).convergenceTelemetries := by
    intro dflt x hx
    simp [MainWindow.new] at hx
  exact ⟨fun _ => rfl, hnew, eligibleOnly_showTelemetry,
    fun dflt calls => eligibleOnly_runUpdates _ calls (hnew dflt)⟩

/-- C5 on a run of three calls of which only the first sample is eligible: the predicate holds
before the last call, is preserved by it, and the buffer holds the eligible sample only. -/
theorem buffer_invariant_witness :
    eligibleOnly (runUpdates (MainWindow.new (mkSample 0 0 false))
      (mixedCalls.take 2)).convergenceTelemetries ∧
    eligibleOnly (showTelemetry (runUpdates (MainWindow.new (mkSample 0 0 false))
      (mixedCalls.take 2)) (mkSample 0 0 false) (mkSample 50 (-1) true)).convergenceTelemetries ∧
    (runUpdates (MainWindow.new (mkSample 0 0 false)) mixedCalls).convergenceTelemetries
      = [mkSample 30 4 true] := by
  have h2 : eligibleOnly (runUpdates (MainWindow.new (mkSample 0 0 false))
      (mixedCalls.take 2)).convergenceTelemetries :=
    buffer_invariant.2.2.2 (mkSample 0 0 false) (mixedCalls.take 2)
  refine ⟨h2, buffer_invariant.2.2.1 _ _ _ h2, ?_⟩
  simp [runUpdates, mixedCalls, showTelemetry, MainWindow.new, appendSample, evictFront,
    mkSample]

/-- C6, as stated, fails: the headings `f = 0.7f` and `l = 15.7f` are binary32 values in
`[0, 360)` at circular distance `15 - 3 / 2 ^ 24`, strictly less than 15, yet the computed
`minimalDistinguish` is false. -/
theorem circular_closeness_fails_near_bound :
    isBinary32 float0_7 ∧ isBinary32 float15_7 ∧
    (0 ≤ float0_7 ∧ float0_7 < 360) ∧ (0 ≤ float15_7 ∧ float15_7 < 360) ∧
    circularDistance float0_7 float15_7 = 15 - 3 / 2 ^ 24 ∧
    circularDistance float0_7 float15_7 < 15 ∧
    minimalDistinguish float0_7 float15_7 = false := by
  have hd : circularDistance float0_7 float15_7 = 15 - 3 / 2 ^ 24 := by
    unfold circularDistance float0_7 float15_7
    norm_num [abs_of_neg]
  refine ⟨(inferInstance : Fact (isBinary32 float0_7)).out,
    (inferInstance : Fact (isBinary32 float15_7)).out, ?_, ?_, hd, ?_,
    minimalDistinguish_float0_7_float15_7⟩
  · unfold float0_7
    constructor <;> norm_num
  · unfold float15_7
    constructor <;> norm_num
  · rw [hd]
    norm_num

/-- C6, amended: the eviction test of `showTelemetry` is the wrap-aware angular closeness test
up to the rounding of single precision. For all binary32 front and back `magneticYaw` values
`f`, `l` with `0 <= f < 360` and `0 <= l < 360`: if the computed `minimalDistinguish` is true
then the circular distance `min(|f - l|, 360 - |f - l|)` is strictly less than 15, and if the
circular distance is at most `15 - 2 ^ (-15)` then `minimalDistinguish` is true. The bound is
strict: `f = 350`, `l = 5`, at circular distance exactly 15, gives false (no eviction), while
`f = 358`, `l = 2`, at circular distance 4, gives true (eviction). -/
theorem minimalDistinguish_is_circular_closeness :
    (∀ f l : ℚ, isBinary32 f → isBinary32 l → 0 ≤ f → f < 360 → 0 ≤ l → l < 360 →
      (minimalDistinguish f l = true → circularDistance f l < 15) ∧
      (circularDistance f l ≤ 15 - 1 / 2 ^ 15 → minimalDistinguish f l = true)) ∧
    (circularDistance 350 5 = 15 ∧ minimalDistinguish 350 5 = false) ∧
    (circularDistance 358 2 = 4 ∧ minimalDistinguish 358 2 = true) := by
  have h1 : circularDistance 350 5 = 15 := by
    unfold circularDistance
    norm_num [abs_of_nonneg]
  have h2 : circularDistance 358 2 = 4 := by
    unfold circularDistance
    norm_num [abs_of_nonneg]
  have b350 : isBinary32 350 := ⟨350, 0, by norm_num, by norm_num, by norm_num, by norm_num⟩
  have b5 : isBinary32 5 := ⟨5, 0, by norm_num, by norm_num, by norm_num, by norm_num⟩
  have b358 : isBinary32 358 := ⟨358, 0, by norm_num, by norm_num, by norm_num, by norm_num⟩
  have b2 : isBinary32 2 := ⟨2, 0, by norm_num, by norm_num, by norm_num, by norm_num⟩
  refine ⟨?_, ⟨h1, ?_⟩, ⟨h2, ?_⟩⟩
  · intro f l hf hl hf0 hf1 hl0 hl1
    constructor
    · intro htrue
      by_contra hnot
      rw [minimalDistinguish_of_far f l hf hl hf0 hf1 hl0 hl1 (not_lt.mp hnot)] at htrue
      exact Bool.false_ne_true htrue
    · intro hclose
      exact minimalDistinguish_of_close f l hf hl hf0 hf1 hl0 hl1 (by
        have : (15 - 1 / 2 ^ 15 : ℚ) = 15 - 1 / 32768 := by norm_num
        rw [← this]
        exact hclose)
  · exact minimalDistinguish_of_far 350 5 b350 b5 (by norm_num) (by norm_num) (by norm_num)
      (by norm_num) (by rw [h1])
  · exact minimalDistinguish_of_close 358 2 b358 b2 (by norm_num) (by norm_num) (by norm_num)
      (by norm_num) (by rw [h2]; norm_num)

/-- C6 amended, at the binary32 headings `f = 10`, `l = 20`, at circular distance 10: the test
is true. -/
theorem minimalDistinguish_is_circular_closeness_witness :
    isBinary32 10 ∧ isBinary32 20 ∧ circularDistance 10 20 ≤ 15 - 1 / 2 ^ 15 ∧
    minimalDistinguish 10 20 = true := by
  have h10 : isBinary32 10 := (inferInstance : Fact (isBinary32 10)).out
  have h20 : isBinary32 20 := (inferInstance : Fact (isBinary32 20)).out
  have hd : circularDistance 10 20 ≤ 15 - 1 / 2 ^ 15 := by
    unfold circularDistance
    norm_num [abs_of_neg]
  exact ⟨h10, h20, hd, (minimalDistinguish_is_circular_closeness.1 10 20 h10 h20 (by norm_num)
    (by norm_num) (by norm_num) (by norm_num)).2 hd⟩

/-- C10: eviction never takes the buffer below the 20-sample threshold. For every buffer and
every sample the size after `showTelemetry` is at least `min (size before) 20`; a removal from
the front (the buffer after the update differs from the buffer after the append step) happens
only when the buffer holds more than 20 samples after the append step; and an update with an
eligible sample never leaves the buffer smaller than it was before the update. -/
theorem showTelemetry_size_floor (w : MainWindow) (t c : Telemetry) :
    min w.convergenceTelemetries.length 20
      ≤ (showTelemetry w t c).convergenceTelemetries.length ∧
    (c.isConvergenceDataExist = false →
      (showTelemetry w t c).convergenceTelemetries = w.convergenceTelemetries) ∧
    (c.isConvergenceDataExist = true →
      (showTelemetry w t c).convergenceTelemetries ≠ appendSample w.convergenceTelemetries c →
      (showTelemetry w t c).convergenceTelemetries
          = (appendSample w.convergenceTelemetries c).tail ∧
        20 < (appendSample w.convergenceTelemetries c).length) ∧
    (isEligible c →
      w.convergenceTelemetries.length
        ≤ (showTelemetry w t c).convergenceTelemetries.length) := by
  refine ⟨?_, showTelemetry_buffer_false w t c, ?_, ?_⟩
  · cases hflag : c.isConvergenceDataExist
    · rw [showTelemetry_buffer_false w t c hflag]
      exact min_le_left _ _
    · rw [showTelemetry_buffer_true w t c hflag]
      have happ : w.convergenceTelemetries.length
          ≤ (appendSample w.convergenceTelemetries c).length := by
        unfold appendSample
        split <;> simp
      rcases evictFront_length (appendSample w.convergenceTelemetries c) with h | ⟨h, hlen⟩
      · rw [h]
        exact le_trans (min_le_left _ _) happ
      · rw [Nat.min_def]
        split <;> omega
  · intro hflag hne
    rw [showTelemetry_buffer_true w t c hflag] at hne ⊢
    rcases evictFront_cases (appendSample w.convergenceTelemetries c) with h | h
    · exact absurd h hne
    · exact h
  · intro helig
    rw [showTelemetry_buffer_true w t c helig.1]
    have happ : (appendSample w.convergenceTelemetries c).length
        = w.convergenceTelemetries.length + 1 := by
      rw [appendSample_nonneg _ _ helig.2, List.length_append, List.length_singleton]
    rcases evictFront_length (appendSample w.convergenceTelemetries c) with h | ⟨h, _⟩ <;> omega

/-- C10 at a buffer of 25 samples with an eligible sample close to the first one: the front
element is removed, 26 > 20 samples were held after the append step, and the 25 samples held
afterwards are not fewer than the 25 held before. -/
theorem showTelemetry_size_floor_witness :
    isEligible (mkSample 10 7 true) ∧
    25 ≤ (showTelemetry (windowWith buffer25) (mkSample 0 0 false)
        (mkSample 10 7 true)).convergenceTelemetries.length ∧
    min 25 20 ≤ (showTelemetry (windowWith buffer25) (mkSample 0 0 false)
        (mkSample 10 7 true)).convergenceTelemetries.length := by
  have h := showTelemetry_size_floor (windowWith buffer25) (mkSample 0 0 false)
    (mkSample 10 7 true)
  have helig : isEligible (mkSample 10 7 true) := ⟨rfl, by simp [mkSample]⟩
  have h25 : (windowWith buffer25).convergenceTelemetries.length = 25 := by simp [buffer25]
  have h4 := h.2.2.2 helig
  have h1 := h.1
  rw [h25] at h4 h1
  exact ⟨helig, h4, h1⟩

/-- C7: the buffer can grow without bound while the heading is changing. For every `N` there
is a finite sequence of `showTelemetry` calls, from the empty buffer of the constructed window,
after which the buffer holds more than `N` samples. In particular, for every sequence of `n`
eligible samples (flag true, `packetId >= 0`, `magneticYaw` in `[0, 360)`) in which every
sample after the first is at circular distance at least 15 degrees from the first one, no
eviction ever happens: after every prefix of the calls the buffer is exactly the sequence of
the samples received so far, and it holds exactly `n` samples after the `n` updates. -/
theorem buffer_grows_while_turning :
    (∀ (dflt : Telemetry) (N : Nat), ∃ calls : List (Telemetry × Telemetry),
      N < (runUpdates (MainWindow.new dflt) calls).convergenceTelemetries.length) ∧
    (∀ (dflt : Telemetry) (calls : List (Telemetry × Telemetry)),
      (∀ tc ∈ calls, isEligible tc.2 ∧ yawInRange tc.2) →
      (∀ first ∈ calls.head?, ∀ tc ∈ calls.tail,
        circularDistance first.2.magneticYaw tc.2.magneticYaw ≥ 15) →
      (∀ k : Nat, (runUpdates (MainWindow.new dflt) (calls.take k)).convergenceTelemetries
          = (calls.take k).map Prod.snd) ∧
      (runUpdates (MainWindow.new dflt) calls).convergenceTelemetries = calls.map Prod.snd ∧
      (runUpdates (MainWindow.new dflt) calls).convergenceTelemetries.length = calls.length) := by
  constructor
  · intro dflt N
    refine ⟨turningCalls N, ?_⟩
    rw [runUpdates_new_far dflt (turningCalls N)]
    · simp [turningCalls]
    · intro tc htc
      simp only [turningCalls, List.mem_cons, List.mem_replicate] at htc
      rcases htc with h | ⟨_, h⟩ <;>
        (rw [h]
         exact ⟨⟨rfl, by simp [mkSample]⟩, by simp [mkSample], by norm_num [mkSample]⟩)
    · intro first hfirst tc htc
      simp only [turningCalls, List.head?_cons, Option.mem_def, Option.some.injEq] at hfirst
      simp only [turningCalls, List.tail_cons, List.mem_replicate] at htc
      rw [← hfirst, htc.2]
      simp only [mkSample, circularDistance]
      norm_num [abs_of_nonpos]
  · intro dflt calls helig hfar
    have hall : (runUpdates (MainWindow.new dflt) calls).convergenceTelemetries
        = calls.map Prod.snd :=
      runUpdates_new_far dflt calls helig hfar
    refine ⟨?_, hall, by rw [hall, List.length_map]⟩
    intro k
    apply runUpdates_new_far dflt (calls.take k)
    · intro tc htc
      exact helig tc (List.mem_of_mem_take htc)
    · intro first hfirst tc htc
      cases k with
      | zero => simp at htc
      | succ j =>
        cases calls with
        | nil => simp at htc
        | cons a rest =>
          simp only [List.take_succ_cons, List.head?_cons, Option.mem_def,
            Option.some.injEq, List.tail_cons] at hfirst htc
          exact hfar first (by simpa using hfirst) tc
            (by simpa using List.mem_of_mem_take htc)

/-- C7 on the run of 31 eligible samples `turningCalls 30` (one at 0 degrees, thirty at 180
degrees): the buffer holds all 31 samples, more than the threshold of 20. -/
theorem buffer_grows_while_turning_witness :
    (∀ tc ∈ turningCalls 30, isEligible tc.2 ∧ yawInRange tc.2) ∧
    (∀ first ∈ (turningCalls 30).head?, ∀ tc ∈ (turningCalls 30).tail,
        circularDistance first.2.magneticYaw tc.2.magneticYaw ≥ 15) ∧
    (runUpdates (MainWindow.new (mkSample 0 0 false))
        (turningCalls 30)).convergenceTelemetries.length = 31 := by
  have helig : ∀ tc ∈ turningCalls 30, isEligible tc.2 ∧ yawInRange tc.2 := by
    intro tc htc
    simp only [turningCalls, List.mem_cons, List.mem_replicate] at htc
    rcases htc with h | ⟨_, h⟩ <;>
      (rw [h]; exact ⟨⟨rfl, by simp [mkSample]⟩, by simp [mkSample], by norm_num [mkSample]⟩)
  have hfar : ∀ first ∈ (turningCalls 30).head?, ∀ tc ∈ (turningCalls 30).tail,
      circularDistance first.2.magneticYaw tc.2.magneticYaw ≥ 15 := by
    intro first hfirst tc htc
    simp only [turningCalls, List.head?_cons, Option.mem_def, Option.some.injEq] at hfirst
    simp only [turningCalls, List.tail_cons, List.mem_replicate] at htc
    rw [← hfirst, htc.2]
    simp only [mkSample, circularDistance]
    norm_num [abs_of_nonpos]
  have h := (buffer_grows_while_turning.2 (mkSample 0 0 false) (turningCalls 30)
    helig hfar).2.2
  refine ⟨helig, hfar, ?_⟩
  rw [h]
  simp [turningCalls]

/-- C8, as stated, fails: on a buffer of 25 samples at `magneticYaw = 10`, an eligible sample at
`magneticYaw = 10` (circular distance 0 from the front sample) leaves 25 samples in the
buffer, which is not strictly fewer than the 25 held before the update. -/
theorem stable_heading_does_not_shrink :
    20 < (windowWith buffer25).convergenceTelemetries.length ∧
    isEligible (mkSample 10 7 true) ∧
    (windowWith buffer25).convergenceTelemetries.head? = some (mkSample 10 3 true) ∧
    circularDistance (mkSample 10 3 true).magneticYaw (mkSample 10 7 true).magneticYaw < 15 ∧
    (showTelemetry (windowWith buffer25) (mkSample 0 0 false)
        (mkSample 10 7 true)).convergenceTelemetries.length = 25 ∧
    ¬ ((showTelemetry (windowWith buffer25) (mkSample 0 0 false)
        (mkSample 10 7 true)).convergenceTelemetries.length
          < (windowWith buffer25).convergenceTelemetries.length) := by
  have hlen : (showTelemetry (windowWith buffer25) (mkSample 0 0 false)
      (mkSample 10 7 true)).convergenceTelemetries.length = 25 := by
    rw [showTelemetry_buffer_true _ _ _ rfl, appendSample_nonneg _ _ (by simp [mkSample]),
      evictFront_eq_ite _ (mkSample 10 3 true) (mkSample 10 7 true)
        (by simp [buffer25]) (by simp [List.getLast?_append])]
    have hm : minimalDistinguish (mkSample 10 3 true).magneticYaw
        (mkSample 10 7 true).magneticYaw = true := minimalDistinguish_ten_ten
    simp [hm, buffer25]
  refine ⟨by simp [buffer25], ⟨rfl, by simp [mkSample]⟩, by simp [buffer25], ?_, hlen, ?_⟩
  · simp [mkSample, circularDistance]
  · rw [hlen]
    simp [buffer25]

/-- C8, amended: for every buffer holding more than 20 samples and every eligible sample such
that its `magneticYaw` and the `magneticYaw` of the front sample of the buffer are in
`[0, 360)` and at circular distance at most `15 - 2 ^ (-15)` degrees, `showTelemetry` appends
the sample and removes the front sample: the buffer afterwards is the old buffer without its
first element followed by the sample, and it holds exactly as many samples as before the
update. -/
theorem stable_heading_keeps_size (w : MainWindow) (t c front : Telemetry)
    (hlen : 20 < w.convergenceTelemetries.length) (helig : isEligible c)
    (hfront : w.convergenceTelemetries.head? = some front)
    (hrf : yawInRange front) (hrc : yawInRange c)
    (hclose : circularDistance front.magneticYaw c.magneticYaw ≤ 15 - 1 / 2 ^ 15) :
    (showTelemetry w t c).convergenceTelemetries = w.convergenceTelemetries.tail ++ [c] ∧
    (showTelemetry w t c).convergenceTelemetries.length = w.convergenceTelemetries.length := by
  have hne : w.convergenceTelemetries ≠ [] := by
    intro hnil
    rw [hnil] at hfront
    simp at hfront
  have hm : minimalDistinguish front.magneticYaw c.magneticYaw = true :=
    minimalDistinguish_of_close _ _ front.magneticYaw_isBinary32 c.magneticYaw_isBinary32
      hrf.1 hrf.2 hrc.1 hrc.2 (by
        have : (15 - 1 / 2 ^ 15 : ℚ) = 15 - 1 / 32768 := by norm_num
        rw [← this]
        exact hclose)
  have hbuf : (showTelemetry w t c).convergenceTelemetries
      = w.convergenceTelemetries.tail ++ [c] := by
    rw [showTelemetry_buffer_true w t c helig.1, appendSample_nonneg _ _ helig.2,
      evictFront_eq_ite _ front c (by rw [List.head?_append_of_ne_nil _ hne, hfront])
        (by simp [List.getLast?_append]),
      if_pos ⟨by rw [List.length_append]; omega, hm⟩]
    exact List.tail_append_of_ne_nil hne
  refine ⟨hbuf, ?_⟩
  rw [hbuf, List.length_append, List.length_tail, List.length_singleton]
  omega

/-- C8 amended, on the buffer of 25 samples at `magneticYaw = 10` and an eligible sample at
`magneticYaw = 10`: 25 samples are held after the update. -/
theorem stable_heading_keeps_size_witness :
    20 < (windowWith buffer25).convergenceTelemetries.length ∧
    isEligible (mkSample 10 7 true) ∧
    yawInRange (mkSample 10 3 true) ∧ yawInRange (mkSample 10 7 true) ∧
    circularDistance (mkSample 10 3 true).magneticYaw (mkSample 10 7 true).magneticYaw
      ≤ 15 - 1 / 2 ^ 15 ∧
    (showTelemetry (windowWith buffer25) (mkSample 0 0 false)
        (mkSample 10 7 true)).convergenceTelemetries
      = List.replicate 24 (mkSample 10 3 true) ++ [mkSample 10 7 true] := by
  have hlen : 20 < (windowWith buffer25).convergenceTelemetries.length := by simp [buffer25]
  have helig : isEligible (mkSample 10 7 true) := ⟨rfl, by simp [mkSample]⟩
  have hr3 : yawInRange (mkSample 10 3 true) := ⟨by simp [mkSample], by norm_num [mkSample]⟩
  have hr7 : yawInRange (mkSample 10 7 true) := ⟨by simp [mkSample], by norm_num [mkSample]⟩
  have hclose : circularDistance (mkSample 10 3 true).magneticYaw
      (mkSample 10 7 true).magneticYaw ≤ 15 - 1 / 2 ^ 15 := by
    simp only [mkSample, circularDistance]
    norm_num
  have h := stable_heading_keeps_size (windowWith buffer25) (mkSample 0 0 false)
    (mkSample 10 7 true) (mkSample 10 3 true) hlen helig (by simp [buffer25]) hr3 hr7 hclose
  refine ⟨hlen, helig, hr3, hr7, hclose, ?_⟩
  rw [h.1]
  simp [buffer25]

/-! ## The convergence trace -/

/-- C9: trace colouring in `drawConvergenceSpeed`. For every buffer with at least 2 samples the
calls received by the painter are `save`, the initial `setPen` of the green pen, then for every
buffered sample in buffer order a `setPen` exactly when the sign of the sample differs from the
sign of the previous sample (the first sample being compared with "positive") followed by one
`drawLine`, and finally `restore`. Hence exactly one segment is drawn per buffered sample, in
buffer order, from the previous point (the centre for the first sample) to the point of that
sample, and the pen in force for it is green if `convergenceSpeed > 0` of that sample and red
otherwise, at every position. -/
theorem drawConvergenceSpeed_trace (cosDeg sinDeg : ℚ → ℚ) (w : MainWindow) (painter : QPainter)
    (center : QPointF) (radius : ℚ) (hsize : 2 ≤ w.convergenceTelemetries.length) :
    (drawConvergenceSpeed cosDeg sinDeg w painter center radius).calls
      = painter.calls ++ [PaintCall.save, PaintCall.setPen positivePen] ++
          expectedTrace cosDeg sinDeg center radius true center w.convergenceTelemetries ++
          [PaintCall.restore] ∧
    drawnLines ((drawConvergenceSpeed cosDeg sinDeg w painter center radius).calls.drop
        painter.calls.length)
      = List.zipWith
          (fun start t => (penFor t, start, tracePoint cosDeg sinDeg center radius t))
          (center :: w.convergenceTelemetries.map (tracePoint cosDeg sinDeg center radius))
          w.convergenceTelemetries ∧
    (drawnLines ((drawConvergenceSpeed cosDeg sinDeg w painter center radius).calls.drop
        painter.calls.length)).length = w.convergenceTelemetries.length ∧
    (∀ (i : Nat) (t : Telemetry), w.convergenceTelemetries[i]? = some t →
      ∃ start : QPointF,
        (drawnLines ((drawConvergenceSpeed cosDeg sinDeg w painter center radius).calls.drop
          painter.calls.length))[i]?
          = some (if t.convergenceSpeed > 0 then positivePen else negativePen, start,
              tracePoint cosDeg sinDeg center radius t)) := by
  have hcalls : (drawConvergenceSpeed cosDeg sinDeg w painter center radius).calls
      = painter.calls ++ [PaintCall.save, PaintCall.setPen positivePen] ++
          expectedTrace cosDeg sinDeg center radius true center w.convergenceTelemetries ++
          [PaintCall.restore] := by
    have hnot : ¬ w.convergenceTelemetries.length < 2 := by omega
    have h := foldl_traceStep_spec cosDeg sinDeg center radius w.convergenceTelemetries
      { painter := (painter.save).setPen positivePen, previousPoint := center,
        isPreviuosPositive := true } rfl
    simp only [drawConvergenceSpeed, hnot, if_false]
    simp only [QPainter.restore, QPainter.save, QPainter.setPen] at h ⊢
    rw [h.2]
    simp only [h.1]
    simp
  have hlines : drawnLines ((drawConvergenceSpeed cosDeg sinDeg w painter center radius).calls.drop
        painter.calls.length)
      = List.zipWith
          (fun start t => (penFor t, start, tracePoint cosDeg sinDeg center radius t))
          (center :: w.convergenceTelemetries.map (tracePoint cosDeg sinDeg center radius))
          w.convergenceTelemetries := by
    rw [hcalls, List.append_assoc, List.append_assoc, List.drop_left, drawnLines_append,
      drawnLines_append, drawnLines_expectedTrace]
    simp [drawnLines]
  refine ⟨hcalls, hlines, ?_, ?_⟩
  · rw [hlines]
    simp
  · intro i t hi
    rw [hlines]
    have hlt : i < w.convergenceTelemetries.length := by
      rcases List.getElem?_eq_some_iff.mp hi with ⟨hlt, _⟩
      exact hlt
    have hstart : ∃ start : QPointF,
        (center :: w.convergenceTelemetries.map (tracePoint cosDeg sinDeg center radius))[i]?
          = some start := by
      have hlt2 : i < (center ::
          w.convergenceTelemetries.map (tracePoint cosDeg sinDeg center radius)).length := by
        simp
        omega
      exact ⟨_, List.getElem?_eq_getElem hlt2⟩
    obtain ⟨start, hstart⟩ := hstart
    refine ⟨start, ?_⟩
    rw [List.getElem?_zipWith, hstart, hi]
    simp [penFor, positivePen, negativePen]

/-- C9 on a buffer of three samples with speeds `1`, `-1`, `-1`: the green pen set up before
the loop serves the first segment, the pen is changed to red at the second sample only, and
three segments are drawn, green, red, red. -/
theorem drawConvergenceSpeed_trace_witness :
    2 ≤ (windowWith traceBuffer).convergenceTelemetries.length ∧
    (drawConvergenceSpeed (fun _ => 1) (fun _ => 0) (windowWith traceBuffer) freshPainter
        (0, 0) 10).calls
      = [PaintCall.save, PaintCall.setPen positivePen,
         PaintCall.drawLine positivePen (0, 0) (10, 0),
         PaintCall.setPen negativePen,
         PaintCall.drawLine negativePen (10, 0) (20, 0),
         PaintCall.drawLine negativePen (20, 0) (30, 0),
         PaintCall.restore] := by
  have hsize : 2 ≤ (windowWith traceBuffer).convergenceTelemetries.length := by
    simp [traceBuffer]
  have h := (drawConvergenceSpeed_trace (fun _ => 1) (fun _ => 0) (windowWith traceBuffer)
    freshPainter (0, 0) 10 hsize).1
  refine ⟨hsize, ?_⟩
  rw [h]
  simp [expectedTrace, sampleCalls, traceBuffer, freshPainter, isPositive, penFor, tracePoint,
    mkTracePoint, mkSample, positivePen, negativePen]
  norm_num

end UavConvergence
